import Mathlib

/-!
# google-photos-exporter: a shallow embedding of `main.go`

The program lists the albums of a photo service, selects the albums whose
title equals a command-line argument, pages through the media items of each
selected album, writes one JSON-LD document per item and finally one JSON-LD
document per album.

The embedding follows `main.go` statement by statement.  Calls into the Go
standard library (`time`, `crypto/sha1`, `fmt`, `strings`) are modelled by
executable Lean functions; calls whose result is decided by the outside world
(the remote service, the file system, `encoding/json`) are answered by an
environment record and logged in a trace of events.
-/

namespace GooglePhotosExporter

/-! ## Characters and decimal numbers -/

/-- Decimal value of an ASCII digit character. -/
def digitVal (c : Char) : Nat := c.toNat - 48

/-- The ASCII digit character of a value below ten. -/
def digitChar (d : Nat) : Char := Char.ofNat (48 + d % 10)

/-- Go `isDigit`: the character is one of `0`..`9`. -/
def isDigit (c : Char) : Bool := decide (48 ≤ c.toNat) && decide (c.toNat ≤ 57)

/-- Decimal digits of `n`, most significant first, produced with `fuel`
division steps; the accumulator `acc` holds the digits already produced. -/
def decimalDigitsAux : Nat → Nat → List Char → List Char
  | 0, _, acc => acc
  | fuel + 1, n, acc =>
    if n < 10 then digitChar n :: acc
    else decimalDigitsAux fuel (n / 10) (digitChar n :: acc)

/-- Decimal rendering of a natural number (`strconv.Itoa` on non-negative input). -/
def decimalDigits (n : Nat) : List Char := decimalDigitsAux (n + 1) n []

/-- Left-pad a digit list with `0` up to `width` characters. -/
def padZeros (width : Nat) (ds : List Char) : List Char :=
  List.replicate (width - ds.length) '0' ++ ds

/-- Go `appendInt(b, x, width)` of package `time`: sign, then the decimal
digits zero-padded to `width`. -/
def appendInt (x : Int) (width : Nat) : List Char :=
  if x < 0 then '-' :: padZeros width (decimalDigits x.natAbs)
  else padZeros width (decimalDigits x.natAbs)

/-! ## Package `time`: the proleptic Gregorian calendar -/

/-- Go `isLeap`. -/
def isLeap (year : Int) : Bool :=
  decide (year % 4 = 0) && (decide (year % 100 ≠ 0) || decide (year % 400 = 0))

/-- Go `daysIn(month, year)`. -/
def daysIn (month : Nat) (year : Int) : Nat :=
  if month = 2 then (if isLeap year then 29 else 28)
  else if month = 4 ∨ month = 6 ∨ month = 9 ∨ month = 11 then 30
  else 31

/-- Number of days from 1970-01-01 to the civil date `year-month-day`. -/
def daysFromCivil (year : Int) (month day : Nat) : Int :=
  let y : Int := if month ≤ 2 then year - 1 else year
  let era : Int := y / 400
  let yoe : Int := y - era * 400
  let mp : Int := if month ≤ 2 then (month : Int) + 9 else (month : Int) - 3
  let doy : Int := (153 * mp + 2) / 5 + (day : Int) - 1
  let doe : Int := yoe * 365 + yoe / 4 - yoe / 100 + doy
  era * 146097 + doe - 719468

/-- A calendar date. -/
structure CivilDate where
  year : Int
  month : Int
  day : Int
deriving DecidableEq, Repr

/-- The year counted from 1 March of year 0 and the day within that year
(0 is 1 March) of the day lying `z` days after 1970-01-01: whole 400-year
cycles, then centuries, then 4-year cycles, then years are cut off. -/
def marchYearDay (z : Int) : Int × Int :=
  let z1 : Int := z + 719468
  let era : Int := z1 / 146097
  let doe : Int := z1 % 146097
  let cent : Int := min (doe / 36524) 3
  let doc : Int := doe - cent * 36524
  let quad : Int := doc / 1461
  let doq : Int := doc % 1461
  let yoq : Int := min (doq / 365) 3
  (era * 400 + cent * 100 + quad * 4 + yoq, doq - yoq * 365)

/-- The civil date of the day lying `z` days after 1970-01-01. -/
def civilFromDays (z : Int) : CivilDate :=
  let y : Int := (marchYearDay z).1
  let doy : Int := (marchYearDay z).2
  let mp : Int := (5 * doy + 2) / 153
  let d : Int := doy - (153 * mp + 2) / 5 + 1
  let m : Int := if mp < 10 then mp + 3 else mp - 9
  { year := if m ≤ 2 then y + 1 else y, month := m, day := d }

/-- Chronological (lexicographic) order of calendar dates. -/
def CivilDate.earlier (a b : CivilDate) : Prop :=
  a.year < b.year ∨ (a.year = b.year ∧ (a.month < b.month ∨ (a.month = b.month ∧ a.day < b.day)))

instance (a b : CivilDate) : Decidable (a.earlier b) := by
  unfold CivilDate.earlier; infer_instance

/-! ## Package `time`: instants -/

/-- Go `time.Time`: an instant (seconds and nanoseconds since the Unix epoch)
together with the offset east of UTC, in seconds, of the location it carries. -/
structure Time where
  unixSec : Int
  nsec : Nat
  offset : Int
deriving DecidableEq, Repr

/-- Go `t.Before(u)`: the instant `t` is strictly before the instant `u`. -/
def Time.Before (t u : Time) : Bool :=
  decide (t.unixSec < u.unixSec) || (decide (t.unixSec = u.unixSec) && decide (t.nsec < u.nsec))

/-- Go `t.After(u)`: the instant `t` is strictly after the instant `u`. -/
def Time.After (t u : Time) : Bool :=
  decide (t.unixSec > u.unixSec) || (decide (t.unixSec = u.unixSec) && decide (t.nsec > u.nsec))

/-- Seconds since the epoch of the wall clock shown in the location of `t`. -/
def Time.localSec (t : Time) : Int := t.unixSec + t.offset

/-- Day number (days since 1970-01-01) of the calendar date shown in the location of `t`. -/
def Time.localDay (t : Time) : Int := t.localSec / 86400

/-- Go `t.Date()`: the calendar date shown in the location of `t`. -/
def Time.date (t : Time) : CivilDate := civilFromDays t.localDay

/-- Rendering `YYYY-MM-DD` of a calendar date. -/
def CivilDate.render (d : CivilDate) : String :=
  String.mk (appendInt d.year 4 ++ '-' :: appendInt d.month 2 ++ '-' :: appendInt d.day 2)

/-- Layouts passed to `time.Parse` and `Time.Format` by the program. -/
inductive Layout where
  /-- The layout `"2006-01-02"`. -/
  | dateOnly
  /-- The layout `time.RFC3339`, `"2006-01-02T15:04:05Z07:00"`. -/
  | rfc3339
deriving DecidableEq, Repr

/-- Rendering of the zone of layout element `Z07:00`: `Z` for offset zero,
else the sign and the offset in whole minutes (Go's truncating division) as
`hh:mm`. -/
def formatZone (offset : Int) : List Char :=
  if offset = 0 then ['Z']
  else
    let zone : Int := Int.tdiv offset 60
    (if zone < 0 then '-' else '+') ::
      (appendInt (zone.natAbs / 60 : Nat) 2 ++ ':' :: appendInt (zone.natAbs % 60 : Nat) 2)

/-- Go `t.Format(layout)` for the two layouts the program uses. -/
def Time.Format (t : Time) : Layout → String
  | .dateOnly => t.date.render
  | .rfc3339 =>
    let s : Int := t.localSec % 86400
    String.mk (t.date.render.data ++ 'T' :: appendInt (s / 3600) 2 ++ ':' ::
      appendInt (s % 3600 / 60) 2 ++ ':' :: appendInt (s % 60) 2 ++ formatZone t.offset)

/-- Go `getnum(s, fixed)`: one or two leading digits; exactly two when `fixed`. -/
def getnum (s : List Char) (fixed : Bool) : Option (Nat × List Char) :=
  match s with
  | [] => none
  | [c0] => if isDigit c0 && !fixed then some (digitVal c0, []) else none
  | c0 :: c1 :: rest =>
    if !isDigit c0 then none
    else if isDigit c1 then some (digitVal c0 * 10 + digitVal c1, rest)
    else if fixed then none
    else some (digitVal c0, c1 :: rest)

/-- Four-digit year at the head of the input (layout element `2006`). -/
def getYear (s : List Char) : Option (Nat × List Char) :=
  match s with
  | a :: b :: c :: d :: rest =>
    if isDigit a && isDigit b && isDigit c && isDigit d then
      some (digitVal a * 1000 + digitVal b * 100 + digitVal c * 10 + digitVal d, rest)
    else none
  | _ => none

/-- Go `skip(value, prefix)` for a one-character literal of the layout. -/
def skipChar (c : Char) (s : List Char) : Option (List Char) :=
  match s with
  | x :: rest => if x = c then some rest else none
  | [] => none

/-- Leading run of digits of the input and the remainder. -/
def spanDigits : List Char → List Char × List Char
  | [] => ([], [])
  | c :: rest =>
    if isDigit c then ((spanDigits rest).1.cons c, (spanDigits rest).2) else ([], c :: rest)

/-- Value of the first nine fractional digits in nanoseconds. -/
def nanosOfDigits (ds : List Char) : Nat :=
  ((ds ++ List.replicate 9 '0').take 9).foldl (fun acc c => acc * 10 + digitVal c) 0

/-- Fractional second that may follow the seconds field although the layout has none. -/
def getFraction (s : List Char) : Nat × List Char :=
  match s with
  | '.' :: c :: rest =>
    if isDigit c then (nanosOfDigits (spanDigits (c :: rest)).1, (spanDigits (c :: rest)).2)
    else (0, s)
  | _ => (0, s)

/-- Layout element `Z07:00`: `Z`, or a sign followed by `hh:mm`; the offset in seconds. -/
def getZone (s : List Char) : Option (Int × List Char) :=
  match s with
  | 'Z' :: rest => some (0, rest)
  | sg :: h1 :: h2 :: ':' :: m1 :: m2 :: rest =>
    if isDigit h1 && isDigit h2 && isDigit m1 && isDigit m2 then
      let off : Int := (((digitVal h1 * 10 + digitVal h2) * 60 + (digitVal m1 * 10 + digitVal m2)) * 60 : Nat)
      if sg = '+' then some (off, rest)
      else if sg = '-' then some (-off, rest)
      else none
    else none
  | _ => none

/-- Go `Date(year, month, day, hour, min, sec, nsec, loc)` for in-range
fields, followed by the shift to the parsed zone. -/
def mkTime (year : Int) (month day hour min sec nsec : Nat) (offset : Int) : Time :=
  { unixSec := daysFromCivil year month day * 86400 + (hour * 3600 + min * 60 + sec : Nat) - offset
    nsec := nsec
    offset := offset }

/-- Go `time.Parse(layout, value)` for the two layouts the program uses. -/
def timeParse (layout : Layout) (value : String) : Except String Time :=
  let bad : Except String Time := .error ("parsing time \"" ++ value ++ "\"")
  match getYear value.data with
  | none => bad
  | some (year, s1) =>
  match skipChar '-' s1 with
  | none => bad
  | some s2 =>
  match getnum s2 true with
  | none => bad
  | some (month, s3) =>
  if month = 0 ∨ 12 < month then .error ("parsing time \"" ++ value ++ "\": month out of range") else
  match skipChar '-' s3 with
  | none => bad
  | some s4 =>
  match getnum s4 true with
  | none => bad
  | some (day, s5) =>
  match layout with
  | .dateOnly =>
    if s5 ≠ [] then .error ("parsing time \"" ++ value ++ "\": extra text") else
    if day < 1 ∨ daysIn month year < day then
      .error ("parsing time \"" ++ value ++ "\": day out of range")
    else .ok (mkTime year month day 0 0 0 0 0)
  | .rfc3339 =>
  match skipChar 'T' s5 with
  | none => bad
  | some s6 =>
  match getnum s6 false with
  | none => bad
  | some (hour, s7) =>
  if 24 ≤ hour then .error ("parsing time \"" ++ value ++ "\": hour out of range") else
  match skipChar ':' s7 with
  | none => bad
  | some s8 =>
  match getnum s8 true with
  | none => bad
  | some (min, s9) =>
  if 60 ≤ min then .error ("parsing time \"" ++ value ++ "\": minute out of range") else
  match skipChar ':' s9 with
  | none => bad
  | some s10 =>
  match getnum s10 true with
  | none => bad
  | some (sec, s11) =>
  if 60 ≤ sec then .error ("parsing time \"" ++ value ++ "\": second out of range") else
  match getZone (getFraction s11).2 with
  | none => bad
  | some (offset, s12) =>
  if s12 ≠ [] then .error ("parsing time \"" ++ value ++ "\": extra text") else
  if day < 1 ∨ daysIn month year < day then
    .error ("parsing time \"" ++ value ++ "\": day out of range")
  else .ok (mkTime year month day hour min sec (getFraction s11).1 offset)

/-- The zero `time.Time`, January 1, year 1, 00:00:00 UTC. -/
def zeroTime : Time := { unixSec := -62135596800, nsec := 0, offset := 0 }

/-- Value kept by `t, _ := time.Parse(...)`: the parsed time, or the zero time on error. -/
def ignoreErr (r : Except String Time) : Time :=
  match r with
  | .ok t => t
  | .error _ => zeroTime

/-! ## Package `crypto/sha1` and the hexadecimal verb `%x` -/

/-- UTF-8 encoding of one character, as byte values. -/
def utf8EncodeChar (c : Char) : List Nat :=
  let v := c.toNat
  if v < 0x80 then [v]
  else if v < 0x800 then [0xC0 + v / 64, 0x80 + v % 64]
  else if v < 0x10000 then [0xE0 + v / 4096, 0x80 + v / 64 % 64, 0x80 + v % 64]
  else [0xF0 + v / 262144, 0x80 + v / 4096 % 64, 0x80 + v / 64 % 64, 0x80 + v % 64]

/-- Go `[]byte(s)`: the bytes of a string. -/
def stringBytes (s : String) : List Nat :=
  s.data.foldr (fun c acc => utf8EncodeChar c ++ acc) []

/-- Rotate a 32-bit word left by `n` bits. -/
def rotl32 (x n : Nat) : Nat := (x <<< n ||| x >>> (32 - n)) % 2 ^ 32

/-- Big-endian bytes of a value, `count` bytes wide. -/
def bigEndianBytes : Nat → Nat → List Nat
  | 0, _ => []
  | count + 1, x => (x >>> (8 * count)) % 256 :: bigEndianBytes count x

/-- SHA-1 padding: the bit `1`, zero bits up to 56 modulo 64 bytes, and the
64-bit big-endian bit length of the message. -/
def sha1Pad (msg : List Nat) : List Nat :=
  let len := msg.length
  msg ++ 0x80 :: List.replicate ((119 - len % 64) % 64) 0 ++ bigEndianBytes 8 (8 * len % 2 ^ 64)

/-- The 32-bit big-endian word at the head of a byte list. -/
def wordAt (bs : List Nat) : Nat :=
  bs.getD 0 0 * 2 ^ 24 + bs.getD 1 0 * 2 ^ 16 + bs.getD 2 0 * 2 ^ 8 + bs.getD 3 0

/-- Extension of the message schedule by `n` words; the schedule is kept
newest word first. -/
def extendSchedule : Nat → List Nat → List Nat
  | 0, w => w
  | n + 1, w =>
    extendSchedule n
      (rotl32 (w.getD 2 0 ^^^ w.getD 7 0 ^^^ w.getD 13 0 ^^^ w.getD 15 0) 1 :: w)

/-- SHA-1 chaining value. -/
structure Sha1State where
  h0 : Nat
  h1 : Nat
  h2 : Nat
  h3 : Nat
  h4 : Nat
deriving DecidableEq, Repr

/-- One round of the SHA-1 compression function. -/
def sha1Round (i : Nat) (s : Sha1State) (w : Nat) : Sha1State :=
  let f : Nat :=
    if i < 20 then (s.h1 &&& s.h2) ||| ((s.h1 ^^^ (2 ^ 32 - 1)) &&& s.h3)
    else if i < 40 then s.h1 ^^^ s.h2 ^^^ s.h3
    else if i < 60 then (s.h1 &&& s.h2) ||| (s.h1 &&& s.h3) ||| (s.h2 &&& s.h3)
    else s.h1 ^^^ s.h2 ^^^ s.h3
  let k : Nat :=
    if i < 20 then 0x5A827999
    else if i < 40 then 0x6ED9EBA1
    else if i < 60 then 0x8F1BBCDC
    else 0xCA62C1D6
  { h0 := (rotl32 s.h0 5 + f + s.h4 + k + w) % 2 ^ 32
    h1 := s.h0
    h2 := rotl32 s.h1 30
    h3 := s.h2
    h4 := s.h3 }

/-- The rounds of one block over the schedule `ws`, starting at round `i`. -/
def sha1Rounds : Nat → Sha1State → List Nat → Sha1State
  | _, s, [] => s
  | i, s, w :: ws => sha1Rounds (i + 1) (sha1Round i s w) ws

/-- Compression of one 64-byte block into the chaining value. -/
def sha1Block (h : Sha1State) (block : List Nat) : Sha1State :=
  let w16 : List Nat := (List.range 16).map (fun i => wordAt (block.drop (4 * i)))
  let w80 : List Nat := (extendSchedule 64 w16.reverse).reverse
  let r := sha1Rounds 0 h w80
  { h0 := (h.h0 + r.h0) % 2 ^ 32
    h1 := (h.h1 + r.h1) % 2 ^ 32
    h2 := (h.h2 + r.h2) % 2 ^ 32
    h3 := (h.h3 + r.h3) % 2 ^ 32
    h4 := (h.h4 + r.h4) % 2 ^ 32 }

/-- Compression of `n` consecutive 64-byte blocks. -/
def sha1Blocks : Nat → Sha1State → List Nat → Sha1State
  | 0, h, _ => h
  | n + 1, h, bs => sha1Blocks n (sha1Block h (bs.take 64)) (bs.drop 64)

/-- The SHA-1 initial chaining value. -/
def sha1Init : Sha1State :=
  { h0 := 0x67452301, h1 := 0xEFCDAB89, h2 := 0x98BADCFE, h3 := 0x10325476, h4 := 0xC3D2E1F0 }

/-- Go `sha1.New()`, `Write(msg)`, `Sum(nil)`: the twenty digest bytes. -/
def sha1Sum (msg : List Nat) : List Nat :=
  let padded := sha1Pad msg
  let h := sha1Blocks (padded.length / 64) sha1Init padded
  bigEndianBytes 4 h.h0 ++ bigEndianBytes 4 h.h1 ++ bigEndianBytes 4 h.h2 ++
    bigEndianBytes 4 h.h3 ++ bigEndianBytes 4 h.h4

/-- Lowercase hexadecimal digit of a value below sixteen. -/
def hexDigit (d : Nat) : Char :=
  if d % 16 < 10 then Char.ofNat (48 + d % 16) else Char.ofNat (87 + d % 16)

/-- Go `fmt.Sprintf("%x", bytes)`: two lowercase hexadecimal digits per byte. -/
def hexString (bs : List Nat) : String :=
  String.mk (bs.foldr (fun b acc => hexDigit (b / 16) :: hexDigit b :: acc) [])

/-- Go `s[0:2]` on the hexadecimal digest. -/
def firstTwo (s : String) : String := String.mk (s.data.take 2)

/-- The relative path of the document of the media item `id`
(`main.go`, lines 223-226). -/
def itemGraphPath (id : String) : String :=
  "items/" ++ firstTwo (hexString (sha1Sum (stringBytes id))) ++ "/" ++ id ++ ".json"

/-- The relative path of the document of the album `albumId` (`main.go`, line 278). -/
def albumGraphPath (albumId : String) : String :=
  "albums/" ++ albumId ++ ".json"

/-! ## `float64`, the verb `%f` and `strings.TrimRight` -/

/-- A finite `float64`: the number `(-1)^neg * mant * 2^exp`.  Values decoded
from the JSON answers of the service are always of this form. -/
structure Float64 where
  neg : Bool
  mant : Nat
  exp : Int
deriving DecidableEq, Repr

/-- Go `x != 0` on a finite `float64` (both zeros compare equal to `0`). -/
def Float64.isNonZero (x : Float64) : Bool := decide (x.mant ≠ 0)

/-- The magnitude of `x` times `10^6`, rounded to the nearest integer, ties to even. -/
def Float64.scaled6 (x : Float64) : Nat :=
  if 0 ≤ x.exp then x.mant * 2 ^ x.exp.toNat * 10 ^ 6
  else
    let num := x.mant * 10 ^ 6
    let den := 2 ^ (-x.exp).toNat
    let q := num / den
    let r := num % den
    if 2 * r < den then q
    else if den < 2 * r then q + 1
    else if q % 2 = 0 then q else q + 1

/-- Go `fmt.Sprintf("%f", x)`: sign, integer part, `.` and six decimals. -/
def sprintfF (x : Float64) : List Char :=
  (if x.neg then ['-'] else []) ++ decimalDigits (x.scaled6 / 10 ^ 6) ++
    '.' :: padZeros 6 (decimalDigits (x.scaled6 % 10 ^ 6))

/-- Removal of the trailing characters satisfying `p`. -/
def dropTrailing (p : Char → Bool) : List Char → List Char
  | [] => []
  | c :: rest =>
    match dropTrailing p rest with
    | [] => if p c then [] else [c]
    | kept => c :: kept

/-- Go `strings.TrimRight(s, cutset)`. -/
def trimRight (s : String) (cutset : String) : String :=
  String.mk (dropTrailing (fun c => cutset.data.contains c) s.data)

/-! ## JSON values -/

/-- The values the program stores in its `map[string]interface{}` documents. -/
inductive Json where
  | str (s : String)
  | int (n : Int)
  | arr (items : List Json)
  | obj (fields : List (String × Json))
deriving Repr

/-- Go `m[key]` lookup on the fields of a map. -/
def lookupKey (key : String) : List (String × Json) → Option Json
  | [] => none
  | (k, v) :: rest => if k = key then some v else lookupKey key rest

/-- Go `m[key] = value` on the fields of a map. -/
def setKey (key : String) (value : Json) : List (String × Json) → List (String × Json)
  | [] => [(key, value)]
  | (k, v) :: rest => if k = key then (key, value) :: rest else (k, v) :: setKey key value rest

/-- The value stored under `key` when the JSON value is a map. -/
def Json.get (j : Json) (key : String) : Option Json :=
  match j with
  | .obj fields => lookupKey key fields
  | _ => none

/-! ## The types of package `photoslibrary/v1` -/

/-- Modelled from the spec: the declaration of `photoslibrary.Album` is not
among the sources; an album is its identifier and its title, the two fields
`main.go` reads. -/
structure Album where
  Id : String
  Title : String
deriving DecidableEq, Repr

/-- Modelled from the spec: the declaration of `photoslibrary.Photo` is not
among the sources; the optional photographic metadata `main.go` reads. -/
structure Photo where
  CameraMake : String
  CameraModel : String
  ApertureFNumber : Float64
  ExposureTime : String
  IsoEquivalent : Int
deriving DecidableEq, Repr

/-- Modelled from the spec: the declaration of `photoslibrary.MediaMetadata`
is not among the sources; creation time, dimensions and photo metadata. -/
structure MediaMetadata where
  CreationTime : String
  Height : Int
  Width : Int
  Photo : Photo
deriving DecidableEq, Repr

/-- Modelled from the spec: the declaration of `photoslibrary.MediaItem` is
not among the sources; the fields `main.go` reads. -/
structure MediaItem where
  Id : String
  Filename : String
  BaseUrl : String
  MediaMetadata : MediaMetadata
deriving DecidableEq, Repr

/-- Modelled from the spec: the declaration of
`photoslibrary.SearchMediaItemsRequest` is not among the sources; the fields
`main.go` sets. -/
structure SearchMediaItemsRequest where
  AlbumId : String
  PageSize : Int
  PageToken : String
deriving DecidableEq, Repr

/-- Modelled from the spec: the declaration of
`photoslibrary.SearchMediaItemsResponse` is not among the sources; one page of
media items and the token of the next page. -/
structure SearchMediaItemsResponse where
  MediaItems : List MediaItem
  NextPageToken : String
deriving DecidableEq, Repr

/-- The `ExportOptions` of `main.go`. -/
structure ExportOptions where
  ContentDirectory : String
  GraphURI : String
  StaticDirectory : String
deriving DecidableEq, Repr

/-! ## The documents built by `exportAlbum` -/

/-- One entry of `exifData` (`main.go`, lines 129-133 and alike). -/
def propertyValue (identifier : String) (value : Json) : Json :=
  .obj [("@type", .str "PropertyValue"), ("identifier", .str identifier), ("value", value)]

/-- The `value` of the aperture entry (`main.go`, line 154). -/
def apertureValue (x : Float64) : String :=
  trimRight ("f/" ++ String.mk (sprintfF x)) "0"

/-- The slice `exifData` after the five conditional appends (`main.go`, lines 124-179). -/
def exifData (item : MediaItem) : List Json :=
  let exifData : List Json := []
  let exifData :=
    if item.MediaMetadata.Photo.CameraMake ≠ "" then
      exifData ++ [propertyValue "make" (.str item.MediaMetadata.Photo.CameraMake)]
    else exifData
  let exifData :=
    if item.MediaMetadata.Photo.CameraModel ≠ "" then
      exifData ++ [propertyValue "model" (.str item.MediaMetadata.Photo.CameraModel)]
    else exifData
  let exifData :=
    if item.MediaMetadata.Photo.ApertureFNumber.isNonZero then
      exifData ++ [propertyValue "aperture" (.str (apertureValue item.MediaMetadata.Photo.ApertureFNumber))]
    else exifData
  let exifData :=
    if item.MediaMetadata.Photo.ExposureTime ≠ "" then
      exifData ++ [propertyValue "exposure" (.str item.MediaMetadata.Photo.ExposureTime)]
    else exifData
  let exifData :=
    if item.MediaMetadata.Photo.IsoEquivalent ≠ 0 then
      exifData ++ [propertyValue "iso" (.int item.MediaMetadata.Photo.IsoEquivalent)]
    else exifData
  exifData

/-- One entry of `thumbnail` (`main.go`, lines 191-196 and alike). -/
def imageObject (contentUrl : String) (height width : Int) : Json :=
  .obj [("@type", .str "ImageObject"), ("contentUrl", .str contentUrl),
    ("height", .int height), ("width", .int width)]

/-- The slice `thumbnail` (`main.go`, lines 187-215). -/
def thumbnail (item : MediaItem) : List Json :=
  [ imageObject (item.BaseUrl ++ "=w1280-h960") 960 1280,
    imageObject (item.BaseUrl ++ "=w640-h480") 480 640,
    imageObject (item.BaseUrl ++ "=w200-h200-c") 200 200,
    imageObject (item.BaseUrl ++ "=w96-h96-c") 96 96 ]

/-- The fields of the map `associatedMedia` (`main.go`, lines 115-218). -/
def associatedMedia (item : MediaItem) (dateCreated : Time) : List (String × Json) :=
  let associatedMedia : List (String × Json) :=
    [ ("@type", .str "ImageObject"),
      ("name", .str item.Filename),
      ("height", .int item.MediaMetadata.Height),
      ("width", .int item.MediaMetadata.Width),
      ("dateCreated", .str (dateCreated.Format .rfc3339)) ]
  let associatedMedia :=
    if 0 < (exifData item).length then setKey "exifData" (.arr (exifData item)) associatedMedia
    else associatedMedia
  setKey "thumbnail" (.arr (thumbnail item)) associatedMedia

/-- The map `photographStructuredData` when it is marshalled (`main.go`, lines 96-220). -/
def photographStructuredData (item : MediaItem) (dateCreated : Time) : Json :=
  .obj (setKey "associatedMedia" (.obj (associatedMedia item dateCreated))
    [ ("@type", .str "Photograph"),
      ("sameAs", .str ("https://photoslibrary.googleapis.com/v1/mediaItems/" ++ item.Id)) ])

/-- The entry appended to `itemListElement` for an item (`main.go`, lines 247-252). -/
def itemRef (opts : ExportOptions) (item : MediaItem) : Json :=
  .obj [("@id", .str (opts.GraphURI ++ "/" ++ itemGraphPath item.Id))]

/-- The string `temporalCoverage` (`main.go`, lines 265-272). -/
def temporalCoverage (dateCreatedMin dateCreatedMax : Time) : String :=
  let dateCreatedMinStr := dateCreatedMin.Format .dateOnly
  let dateCreatedMaxStr := dateCreatedMax.Format .dateOnly
  let temporalCoverage := dateCreatedMinStr
  if dateCreatedMinStr ≠ dateCreatedMaxStr then dateCreatedMinStr ++ "/" ++ dateCreatedMaxStr
  else temporalCoverage

/-- The variables `exportAlbum` carries through its two loops. -/
structure LoopState where
  dateCreatedMin : Time
  dateCreatedMax : Time
  itemListElement : List Json

/-- The values of the loop variables before the first page (`main.go`, lines 83-85). -/
def initialState : LoopState :=
  { dateCreatedMax := ignoreErr (timeParse .dateOnly "0999-01-01")
    dateCreatedMin := ignoreErr (timeParse .dateOnly "2999-12-31")
    itemListElement := [] }

/-- The update of the running minimum (`main.go`, lines 107-109). -/
def updateMin (dateCreatedMin dateCreated : Time) : Time :=
  if dateCreated.Before dateCreatedMin then dateCreated else dateCreatedMin

/-- The update of the running maximum (`main.go`, lines 111-113). -/
def updateMax (dateCreatedMax dateCreated : Time) : Time :=
  if dateCreated.After dateCreatedMax then dateCreated else dateCreatedMax

/-- The map `albumStructuredData` when it is marshalled (`main.go`, lines 76-81, 262-274). -/
def albumStructuredData (album : Album) (st : LoopState) : Json :=
  .obj (setKey "temporalCoverage" (.str (temporalCoverage st.dateCreatedMin st.dateCreatedMax))
    (setKey "itemListElement" (.arr st.itemListElement)
      [ ("@type", .str "Collection"),
        ("additionalType", .str "http://schema.org/ItemList"),
        ("name", .str album.Title),
        ("sameAs", .str ("https://photoslibrary.googleapis.com/v1/albums/" ++ album.Id)) ]))

/-! ## The outside world -/

/-- A call that leaves the program, with its arguments and its answer. -/
inductive Event where
  /-- Call of `fmt.Println(line)`. -/
  | println (line : String)
  /-- Call of `fmt.Printf(format, args...)`. -/
  | printf (format : String) (args : List String)
  /-- Call of `srv.Albums.List().PageSize(pageSize).Do()`. -/
  | albumsList (pageSize : Int) (answer : Except String (List Album))
  /-- Call of `service.MediaItems.Search(request).Do()`. -/
  | search (request : SearchMediaItemsRequest) (answer : Except String SearchMediaItemsResponse)
  /-- Call of `os.MkdirAll(dir, perm)`; `err` is the error returned, if any. -/
  | mkdirAll (dir : String) (perm : Nat) (err : Option String)
  /-- Call of `ioutil.WriteFile(file, data, perm)`; `err` is the error returned, if any. -/
  | writeFile (file : String) (data : String) (perm : Nat) (err : Option String)

/-- The answers of the outside world.  The remote service and the file system
answer as a function of everything that happened before (the trace of events);
`encoding/json` and package `path` are pure functions. -/
structure Env where
  /-- Failure of `ioutil.ReadFile("credentials.json")`, if any. -/
  readCredentials : Option String
  /-- Failure of `google.ConfigFromJSON`, if any. -/
  configFromJSON : Option String
  /-- Failure inside `getClient` (`log.Fatalf`), if any. -/
  getClient : Option String
  /-- Failure of `photoslibrary.New`, if any. -/
  newService : Option String
  /-- Answer of `srv.Albums.List().PageSize(n).Do()`. -/
  albumsList : List Event → Int → Except String (List Album)
  /-- Answer of `service.MediaItems.Search(request).Do()`. -/
  search : List Event → SearchMediaItemsRequest → Except String SearchMediaItemsResponse
  /-- The function `json.MarshalIndent(v, "", "  ")`. -/
  marshalIndent : Json → Except String String
  /-- The function `path.Join(a, b)`. -/
  pathJoin : String → String → String
  /-- The function `path.Dir(p)`. -/
  pathDir : String → String
  /-- Error returned by `os.MkdirAll(dir, perm)`, if any. -/
  mkdirAll : List Event → String → Nat → Option String
  /-- Error returned by `ioutil.WriteFile(file, data, perm)`, if any. -/
  writeFile : List Event → String → String → Nat → Option String

/-- How a loop or a call ended: with a value, with an error, or not within
the number of pages the evaluation was allowed to fetch. -/
inductive Outcome (α : Type) where
  | done (value : α)
  | failed (err : String)
  | unfinished
deriving DecidableEq, Repr

/-- Go `errors.Wrap(err, message).Error()`. -/
def wrap (err : String) (message : String) : String := message ++ ": " ++ err

/-! ## `exportAlbum` -/

/-- The body of the loop over the media items of one page (`main.go`, lines 94-252). -/
def exportItem (env : Env) (opts : ExportOptions) (st : LoopState) (tr : List Event)
    (item : MediaItem) : Except String LoopState × List Event :=
  let tr := tr ++ [.printf "%s %s %s\n" [item.Id, item.MediaMetadata.CreationTime, item.Filename]]
  match timeParse .rfc3339 item.MediaMetadata.CreationTime with
  | .error err => (.error (wrap err "parsing time"), tr)
  | .ok dateCreated =>
    let dateCreatedMin := updateMin st.dateCreatedMin dateCreated
    let dateCreatedMax := updateMax st.dateCreatedMax dateCreated
    match env.marshalIndent (photographStructuredData item dateCreated) with
    | .error err => (.error (wrap err "marshalling"), tr)
    | .ok b =>
      let lp := env.pathJoin opts.ContentDirectory (itemGraphPath item.Id)
      let mkdirErr := env.mkdirAll tr (env.pathDir lp) 0o700
      let tr := tr ++ [.mkdirAll (env.pathDir lp) 0o700 mkdirErr]
      match mkdirErr with
      | some err => (.error (wrap err "mkdir"), tr)
      | none =>
        let writeErr := env.writeFile tr lp (b ++ "\n") 0o755
        let tr := tr ++ [.writeFile lp (b ++ "\n") 0o755 writeErr]
        match writeErr with
        | some err => (.error (wrap err "writing item"), tr)
        | none =>
          (.ok { dateCreatedMin := dateCreatedMin
                 dateCreatedMax := dateCreatedMax
                 itemListElement := st.itemListElement ++ [itemRef opts item] }, tr)

/-- The loop over the media items of one page (`main.go`, line 93). -/
def exportItems (env : Env) (opts : ExportOptions) :
    LoopState → List Event → List MediaItem → Except String LoopState × List Event
  | st, tr, [] => (.ok st, tr)
  | st, tr, item :: rest =>
    match exportItem env opts st tr item with
    | (.error err, tr1) => (.error err, tr1)
    | (.ok st1, tr1) => exportItems env opts st1 tr1 rest

/-- The loop over the pages (`main.go`, lines 87-260); `fuel` bounds the
number of pages fetched. -/
def searchLoop (env : Env) (opts : ExportOptions) :
    Nat → SearchMediaItemsRequest → LoopState → List Event → Outcome LoopState × List Event
  | 0, _, _, tr => (.unfinished, tr)
  | fuel + 1, search, st, tr =>
    let answer := env.search tr search
    let tr := tr ++ [.search search answer]
    match answer with
    | .error err => (.failed (wrap err "searching"), tr)
    | .ok res =>
      match exportItems env opts st tr res.MediaItems with
      | (.error err, tr1) => (.failed err, tr1)
      | (.ok st1, tr1) =>
        if res.NextPageToken = "" then (.done st1, tr1)
        else searchLoop env opts fuel { search with PageToken := res.NextPageToken } st1 tr1

/-- The writing of the album document (`main.go`, lines 262-298). -/
def writeAlbum (env : Env) (album : Album) (opts : ExportOptions) (st : LoopState)
    (tr : List Event) : Outcome Unit × List Event :=
  match env.marshalIndent (albumStructuredData album st) with
  | .error err => (.failed (wrap err "marshalling"), tr)
  | .ok b =>
    let lp := env.pathJoin opts.ContentDirectory (albumGraphPath album.Id)
    let mkdirErr := env.mkdirAll tr (env.pathDir lp) 0o700
    let tr := tr ++ [.mkdirAll (env.pathDir lp) 0o700 mkdirErr]
    match mkdirErr with
    | some err => (.failed (wrap err "mkdir"), tr)
    | none =>
      let writeErr := env.writeFile tr lp (b ++ "\n") 0o755
      let tr := tr ++ [.writeFile lp (b ++ "\n") 0o755 writeErr]
      match writeErr with
      | some err => (.failed (wrap err "writing item"), tr)
      | none => (.done (), tr)

/-- The function `exportAlbum` of `main.go`; `fuel` bounds the number of
pages fetched and `tr` is the trace of events before the call. -/
def exportAlbum (env : Env) (fuel : Nat) (album : Album) (opts : ExportOptions)
    (tr : List Event) : Outcome Unit × List Event :=
  let tr := tr ++ [.printf "%s %s\n" [album.Id, album.Title]]
  let search : SearchMediaItemsRequest := { AlbumId := album.Id, PageSize := 100, PageToken := "" }
  match searchLoop env opts fuel search initialState tr with
  | (.failed err, tr1) => (.failed err, tr1)
  | (.unfinished, tr1) => (.unfinished, tr1)
  | (.done st, tr1) => writeAlbum env album opts st tr1

/-! ## `main` -/

/-- How the process ended. -/
inductive Exit where
  /-- The function `main` returned. -/
  | returned
  /-- Exit through `log.Fatalf(message)`. -/
  | fatal (message : String)
  /-- Exit through `panic(err)`, or the run-time panic of an index out of range. -/
  | panic (message : String)
  /-- The evaluation was not allowed to fetch enough pages. -/
  | unfinished
deriving DecidableEq, Repr

/-- The loop over the listed albums (`main.go`, lines 48-59). -/
def albumLoop (env : Env) (fuel : Nat) (args : List String) :
    List Event → List Album → Exit × List Event
  | tr, [] => (.returned, tr)
  | tr, i :: rest =>
    match args.get? 1 with
    | none => (.panic "runtime error: index out of range", tr)
    | some title =>
      if i.Title ≠ title then
        albumLoop env fuel args (tr ++ [.printf "SKIP: %s %s\n" [i.Id, i.Title]]) rest
      else
        match args.get? 2, args.get? 3 with
        | some contentDirectory, some graphURI =>
          match exportAlbum env fuel i
              { ContentDirectory := contentDirectory, GraphURI := graphURI, StaticDirectory := "" } tr with
          | (.failed err, tr1) => (.panic err, tr1)
          | (.unfinished, tr1) => (.unfinished, tr1)
          | (.done _, tr1) => albumLoop env fuel args tr1 rest
        | _, _ => (.panic "runtime error: index out of range", tr)

/-- The function `main` of `main.go`; `args` is `os.Args`. -/
def main (env : Env) (fuel : Nat) (args : List String) : Exit × List Event :=
  match env.readCredentials with
  | some err => (.fatal ("Unable to read client secret file: " ++ err), [])
  | none =>
  match env.configFromJSON with
  | some err => (.fatal ("Unable to parse client secret file to config: " ++ err), [])
  | none =>
  match env.getClient with
  | some err => (.fatal err, [])
  | none =>
  match env.newService with
  | some err => (.fatal ("Unable to retrieve Drive client: " ++ err), [])
  | none =>
  let answer := env.albumsList [] 25
  let tr : List Event := [.albumsList 25 answer]
  match answer with
  | .error err => (.fatal ("Unable to retrieve albums: " ++ err), tr)
  | .ok albums =>
    if albums.length = 0 then (.returned, tr ++ [.println "No albums found."])
    else albumLoop env fuel args tr albums

/-! ## Observations on traces and documents, used to state the properties -/

/-- Days from 1 March of year 0 to 1 March of the March-based year `y`. -/
def daysBeforeMarchYear (y : Int) : Int := 365 * y + y / 4 - y / 100 + y / 400

/-- The media items the service delivered during the events `d`, in order of delivery. -/
def returnedItems : List Event → List MediaItem
  | [] => []
  | .search _ (.ok res) :: rest => res.MediaItems ++ returnedItems rest
  | _ :: rest => returnedItems rest

/-- The files written during the events `d`: file name and content of every
`ioutil.WriteFile` that returned no error, in order. -/
def writesOf : List Event → List (String × String)
  | [] => []
  | .writeFile file data _ none :: rest => (file, data) :: writesOf rest
  | _ :: rest => writesOf rest

/-- The directory creations and file writes attempted during the events `d`. -/
def fileEvents : List Event → List Event
  | [] => []
  | .mkdirAll dir perm err :: rest => .mkdirAll dir perm err :: fileEvents rest
  | .writeFile file data perm err :: rest => .writeFile file data perm err :: fileEvents rest
  | _ :: rest => fileEvents rest

/-- The album whose export the event starts, if any: every call of
`exportAlbum` begins with `fmt.Printf("%s %s\n", album.Id, album.Title)`. -/
def exportStart : Event → Option Album
  | .printf format args =>
    if format = "%s %s\n" then
      match args with
      | [id, title] => some { Id := id, Title := title }
      | _ => none
    else none
  | _ => none

/-- The albums whose export was started during the events `d`, in order. -/
def exportedAlbums (d : List Event) : List Album := d.filterMap exportStart

/-- The album the event reports as skipped, if any
(`fmt.Printf("SKIP: %s %s\n", i.Id, i.Title)`). -/
def skipReport : Event → Option Album
  | .printf format args =>
    if format = "SKIP: %s %s\n" then
      match args with
      | [id, title] => some { Id := id, Title := title }
      | _ => none
    else none
  | _ => none

/-- The albums skipped during the events `d`, in order. -/
def skippedAlbums (d : List Event) : List Album := d.filterMap skipReport

/-- The event is the call `fmt.Println("No albums found.")`. -/
def isNoAlbumsMessage : Event → Bool
  | .println line => decide (line = "No albums found.")
  | _ => false

/-- The number of calls `fmt.Println("No albums found.")` during the events `d`. -/
def noAlbumsMessages (d : List Event) : Nat := (d.filter isNoAlbumsMessage).length

/-- The creation time of an item when it parses as RFC 3339. -/
def parsedCreationTime (item : MediaItem) : Option Time :=
  match timeParse .rfc3339 item.MediaMetadata.CreationTime with
  | .ok t => some t
  | .error _ => none

/-- The file name under which the document of `item` is written. -/
def itemFile (env : Env) (opts : ExportOptions) (item : MediaItem) : String :=
  env.pathJoin opts.ContentDirectory (itemGraphPath item.Id)

/-- The file name under which the document of `album` is written. -/
def albumFile (env : Env) (opts : ExportOptions) (album : Album) : String :=
  env.pathJoin opts.ContentDirectory (albumGraphPath album.Id)

/-- The pair `w` (file name, content) is the Photograph document of `item`:
its creation time parses, its document marshals, the content is the
marshalled document followed by a newline and the file is `itemFile`. -/
def IsItemWrite (env : Env) (opts : ExportOptions) (item : MediaItem) (w : String × String) : Prop :=
  ∃ dateCreated b,
    timeParse .rfc3339 item.MediaMetadata.CreationTime = .ok dateCreated ∧
    env.marshalIndent (photographStructuredData item dateCreated) = .ok b ∧
    w = (itemFile env opts item, b ++ "\n")

/-- The state `st1` and the written files `ws` are what the item loop makes
of the items `items` when it starts in state `st` and no step fails: every
creation time parses, the running minimum and maximum are folded over the
parsed times, one reference per item is appended, and one document per item
is written, all in the order of the items. -/
def Processed (env : Env) (opts : ExportOptions) (st : LoopState) (items : List MediaItem)
    (ws : List (String × String)) (st1 : LoopState) : Prop :=
  ∃ times : List Time,
    items.map parsedCreationTime = times.map some ∧
    st1.dateCreatedMin = times.foldl updateMin st.dateCreatedMin ∧
    st1.dateCreatedMax = times.foldl updateMax st.dateCreatedMax ∧
    st1.itemListElement = st.itemListElement ++ items.map (itemRef opts) ∧
    List.Forall₂ (IsItemWrite env opts) items ws

/-- The events `d` contain no print of `main` and no start of an export. -/
def Quiet (d : List Event) : Prop :=
  exportedAlbums d = [] ∧ skippedAlbums d = [] ∧ noAlbumsMessages d = 0

/-- The number a finite `float64` denotes. -/
def Float64.toRat (x : Float64) : ℚ :=
  (if x.neg then -1 else 1) * (x.mant : ℚ) * (2 : ℚ) ^ x.exp

/-- The natural number a list of decimal digits denotes. -/
def natOfDigits (ds : List Char) : Nat :=
  ds.foldl (fun acc c => acc * 10 + digitVal c) 0

/-- The number an unsigned decimal numeral `digits.digits` denotes; the
fractional part may be empty. -/
def unsignedDecimalValue (s : List Char) : Option ℚ :=
  match (spanDigits s).1, (spanDigits s).2 with
  | [], _ => none
  | c :: ip, '.' :: fr =>
    if fr.all isDigit then
      some ((natOfDigits (c :: ip) : ℚ) + (natOfDigits fr : ℚ) / (10 : ℚ) ^ fr.length)
    else none
  | _, _ => none

/-- The number a decimal numeral with an optional leading `-` denotes. -/
def decimalValue (s : List Char) : Option ℚ :=
  match s with
  | '-' :: rest => (unsignedDecimalValue rest).map (fun q => -q)
  | _ => unsignedDecimalValue s

/-! ## Example environments -/

mutual
/-- Compact rendering of a JSON value, the stand-in for `json.MarshalIndent`
in the example environments. -/
def renderJson : Json → String
  | .str s => "\"" ++ s ++ "\""
  | .int n =>
    if n < 0 then "-" ++ String.mk (decimalDigits n.natAbs) else String.mk (decimalDigits n.natAbs)
  | .arr items => "[" ++ renderItems items ++ "]"
  | .obj fields => "\x7b" ++ renderFields fields ++ "\x7d"
/-- Rendering of the items of an array. -/
def renderItems : List Json → String
  | [] => ""
  | [j] => renderJson j
  | j :: rest => renderJson j ++ "," ++ renderItems rest
/-- Rendering of the fields of a map. -/
def renderFields : List (String × Json) → String
  | [] => ""
  | [(k, v)] => "\"" ++ k ++ "\":" ++ renderJson v
  | (k, v) :: rest => "\"" ++ k ++ "\":" ++ renderJson v ++ "," ++ renderFields rest
end

/-- The directory part of a clean slash-separated path. -/
def dirOf (p : String) : String :=
  String.mk ((p.data.reverse.dropWhile (fun c => c ≠ '/')).drop 1).reverse

/-- An environment in which the credentials are in order, the file system
never fails, the album listing is `albums` and the media-item search answers
`pages token` to the request carrying the page token `token`. -/
def sampleEnv (albums : List Album)
    (pages : String → Except String SearchMediaItemsResponse) : Env where
  readCredentials := none
  configFromJSON := none
  getClient := none
  newService := none
  albumsList := fun _ _ => .ok albums
  search := fun _ request => pages request.PageToken
  marshalIndent := fun doc => .ok (renderJson doc)
  pathJoin := fun a b => a ++ "/" ++ b
  pathDir := dirOf
  mkdirAll := fun _ _ _ => none
  writeFile := fun _ _ _ _ => none

/-- A media item without photographic metadata, created at `creationTime`. -/
def sampleItem (id creationTime : String) : MediaItem :=
  { Id := id
    Filename := id ++ ".jpg"
    BaseUrl := "https://lh3.example/" ++ id
    MediaMetadata :=
      { CreationTime := creationTime
        Height := 3024
        Width := 4032
        Photo :=
          { CameraMake := "", CameraModel := "", ApertureFNumber := { neg := false, mant := 0, exp := 0 },
            ExposureTime := "", IsoEquivalent := 0 } } }

/-- A service that delivers `items` on a single page. -/
def onePage (items : List MediaItem) : String → Except String SearchMediaItemsResponse :=
  fun _ => .ok { MediaItems := items, NextPageToken := "" }

/-- The album used in the examples. -/
def sampleAlbum : Album := { Id := "A1", Title := "Trip" }

/-- The options used in the examples. -/
def sampleOpts : ExportOptions :=
  { ContentDirectory := "content", GraphURI := "https://g.example", StaticDirectory := "" }

/-- The content of the album document the example runs write, as a function
of its item references and its temporal coverage. -/
def sampleAlbumText (refs coverage : String) : String :=
  "\x7b\"@type\":\"Collection\",\"additionalType\":\"http://schema.org/ItemList\"," ++
  "\"name\":\"Trip\",\"sameAs\":\"https://photoslibrary.googleapis.com/v1/albums/A1\"," ++
  "\"itemListElement\":[" ++ refs ++ "],\"temporalCoverage\":\"" ++ coverage ++ "\"\x7d\n"

/-- The running minimum and maximum with which the page loop ended, when it
ended without error. -/
def finalRange (run : Outcome LoopState × List Event) : Option (Time × Time) :=
  match run.1 with
  | .done st => some (st.dateCreatedMin, st.dateCreatedMax)
  | _ => none

/-- The request `exportAlbum` starts the page loop with (`main.go`, lines 72-74). -/
def firstRequest (album : Album) : SearchMediaItemsRequest :=
  { AlbumId := album.Id, PageSize := 100, PageToken := "" }

/-- A service that delivers `first` on the first page and `second` on the
page requested with the token of the first answer. -/
def twoPages (first second : List MediaItem) : String → Except String SearchMediaItemsResponse :=
  fun token =>
    if token = "" then .ok { MediaItems := first, NextPageToken := "page-2" }
    else .ok { MediaItems := second, NextPageToken := "" }

/-- The events of the export of `sampleAlbum` from the service `pages`. -/
def sampleRun (pages : String → Except String SearchMediaItemsResponse) : List Event :=
  (exportAlbum (sampleEnv [] pages) 5 sampleAlbum sampleOpts []).2

/-- Items created on 2020-01-01, 2020-06-15 and 2020-01-01. -/
def threeItems : List MediaItem :=
  [ sampleItem "i1" "2020-01-01T08:00:00Z",
    sampleItem "i2" "2020-06-15T12:30:00Z",
    sampleItem "i3" "2020-01-01T09:00:00Z" ]

/-- Two items created on the same day, one hour apart. -/
def sameDayItems : List MediaItem :=
  [ sampleItem "i1" "2021-03-03T10:00:00Z", sampleItem "i2" "2021-03-03T11:00:00Z" ]

/-- Two items whose creation times carry different UTC offsets: the first is
created at 2020-01-02T00:30:00Z, the second at 2020-01-01T23:15:00Z. -/
def mixedOffsetItems : List MediaItem :=
  [ sampleItem "i1" "2020-01-01T23:30:00-01:00", sampleItem "i2" "2020-01-02T00:15:00+01:00" ]

/-- Three items, the second of which has a creation time that does not parse. -/
def itemsWithBadTime : List MediaItem :=
  [ sampleItem "i1" "2020-01-01T08:00:00Z",
    sampleItem "i2" "yesterday",
    sampleItem "i3" "2020-01-01T09:00:00Z" ]

/-- An item with photographic metadata; the aperture is the `float64` nearest to 2.8. -/
def photoItem : MediaItem :=
  { Id := "i1"
    Filename := "i1.jpg"
    BaseUrl := "https://lh3.example/i1"
    MediaMetadata :=
      { CreationTime := "2020-01-01T08:00:00Z"
        Height := 3024
        Width := 4032
        Photo :=
          { CameraMake := "Canon", CameraModel := "", ApertureFNumber := { neg := false, mant := 6305039478318694, exp := -51 },
            ExposureTime := "0.01s", IsoEquivalent := 100 } } }

/-- A listing of three albums, two of which are titled `Trip`. -/
def sampleListing : List Album :=
  [ { Id := "A1", Title := "Trip" }, { Id := "A2", Title := "trip" }, { Id := "A3", Title := "Trip" } ]

/-- The parsed creation times of `threeItems`. -/
def threeTimes : List Time :=
  [ { unixSec := 1577865600, nsec := 0, offset := 0 },
    { unixSec := 1592224200, nsec := 0, offset := 0 },
    { unixSec := 1577869200, nsec := 0, offset := 0 } ]

/-- The parsed creation times of `sameDayItems`. -/
def sameDayTimes : List Time :=
  [ { unixSec := 1614765600, nsec := 0, offset := 0 },
    { unixSec := 1614769200, nsec := 0, offset := 0 } ]

/-- The references to the documents of the items `i1`, `i2`, `i3` in the example runs. -/
def sampleRefs : List String :=
  [ "\x7b\"@id\":\"https://g.example/items/37/i1.json\"\x7d",
    "\x7b\"@id\":\"https://g.example/items/ce/i2.json\"\x7d",
    "\x7b\"@id\":\"https://g.example/items/c5/i3.json\"\x7d" ]

/-- The arguments of the example runs of `main`. -/
def sampleArgs : List String := ["exporter", "Trip", "content", "https://g.example"]

/-- The calendar date the creation time of an item is written with: the
first ten characters, `YYYY-MM-DD`, of its RFC 3339 text. -/
def creationDate (item : MediaItem) : String :=
  String.mk (item.MediaMetadata.CreationTime.data.take 10)

/-- One call `exportAlbum(srv, album, opts)` made by `main`: the album, the
trace of events before the call, and how the call ended. -/
structure ExportCall where
  album : Album
  before : List Event
  outcome : Outcome Unit

/-- The `SKIP` reports of the albums `skipped`, in order. -/
def skipEvents (skipped : List Album) : List Event :=
  skipped.map (fun a => Event.printf "SKIP: %s %s\n" [a.Id, a.Title])

/-- The trace `trace` is the trace of a run that starts with the trace
`start` and then makes exactly the calls `calls` of `exportAlbum`, in this
order, each from the trace reached before it and ending as recorded, with
nothing but `SKIP` reports between the calls, before the first and after the
last. -/
def MadeCalls (env : Env) (fuel : Nat) (opts : ExportOptions) :
    List Event → List ExportCall → List Event → Prop
  | start, [], trace => ∃ skipped, trace = start ++ skipEvents skipped
  | start, c :: cs, trace =>
    ∃ skipped, c.before = start ++ skipEvents skipped ∧
      (exportAlbum env fuel c.album opts c.before).1 = c.outcome ∧
      MadeCalls env fuel opts (exportAlbum env fuel c.album opts c.before).2 cs trace

/-- How `main` ends after its last call of `exportAlbum`: it returns when
there was no call or the last call returned `nil`, and it panics with the
error the last call returned. -/
def exitAfter : Option ExportCall → Exit
  | none => .returned
  | some c =>
    match c.outcome with
    | .done _ => .returned
    | .failed err => .panic err
    | .unfinished => .unfinished

/-! # Properties -/

/-! ## The calendar -/

theorem daysBeforeMarchYear_digits (e c q y : Int) (hc : 0 ≤ c ∧ c ≤ 3) (hq : 0 ≤ q ∧ q ≤ 24)
    (hy : 0 ≤ y ∧ y ≤ 3) :
    daysBeforeMarchYear (e * 400 + c * 100 + q * 4 + y)
      = e * 146097 + c * 36524 + q * 1461 + y * 365 := by
  unfold daysBeforeMarchYear; omega

theorem daysBeforeMarchYear_succ (e c q y : Int) (hc : 0 ≤ c ∧ c ≤ 3) (hq : 0 ≤ q ∧ q ≤ 24)
    (hy : 0 ≤ y ∧ y ≤ 3) :
    daysBeforeMarchYear (e * 400 + c * 100 + q * 4 + y + 1)
      = e * 146097 + c * 36524 + q * 1461 + y * 365 + 365
        + (if y = 3 ∧ (q < 24 ∨ c = 3) then 1 else 0) := by
  unfold daysBeforeMarchYear; split_ifs <;> omega

theorem daysBeforeMarchYear_mono (y1 y2 : Int) (h : y1 ≤ y2) :
    daysBeforeMarchYear y1 ≤ daysBeforeMarchYear y2 := by
  unfold daysBeforeMarchYear; omega

/-- The mixed-radix digits (400-year cycle, century, 4-year cycle, year) behind `marchYearDay`. -/
theorem marchYearDay_digits (z : Int) :
    ∃ e c q y : Int, (0 ≤ c ∧ c ≤ 3) ∧ (0 ≤ q ∧ q ≤ 24) ∧ (0 ≤ y ∧ y ≤ 3) ∧
      marchYearDay z = (e * 400 + c * 100 + q * 4 + y,
        z + 719468 - (e * 146097 + c * 36524 + q * 1461 + y * 365)) ∧
      0 ≤ z + 719468 - (e * 146097 + c * 36524 + q * 1461 + y * 365) ∧
      z + 719468 - (e * 146097 + c * 36524 + q * 1461 + y * 365)
        < 365 + (if y = 3 ∧ (q < 24 ∨ c = 3) then 1 else 0) := by
  refine ⟨(z + 719468) / 146097, min ((z + 719468) % 146097 / 36524) 3,
    ((z + 719468) % 146097 - min ((z + 719468) % 146097 / 36524) 3 * 36524) / 1461,
    min (((z + 719468) % 146097 - min ((z + 719468) % 146097 / 36524) 3 * 36524) % 1461 / 365) 3,
    by omega, by omega, by omega, ?_, by omega, ?_⟩
  · simp only [marchYearDay, Prod.mk.injEq, true_and]
    omega
  · split_ifs <;> omega

/-- The day `z` is day `(marchYearDay z).2` of the March-based year `(marchYearDay z).1`. -/
theorem marchYearDay_spec (z : Int) :
    z + 719468 = daysBeforeMarchYear (marchYearDay z).1 + (marchYearDay z).2 ∧
    0 ≤ (marchYearDay z).2 ∧ (marchYearDay z).2 ≤ 365 ∧
    z + 719468 < daysBeforeMarchYear ((marchYearDay z).1 + 1) := by
  obtain ⟨e, c, q, y, hc, hq, hy, h, h0, h1⟩ := marchYearDay_digits z
  have hd := daysBeforeMarchYear_digits e c q y hc hq hy
  have hs := daysBeforeMarchYear_succ e c q y hc hq hy
  rw [h]
  simp only
  rw [hd, hs]
  split_ifs at h1 hs ⊢ <;> omega

theorem marchYearDay_mono (z1 z2 : Int) (h : z1 < z2) :
    (marchYearDay z1).1 < (marchYearDay z2).1 ∨
      ((marchYearDay z1).1 = (marchYearDay z2).1 ∧ (marchYearDay z1).2 < (marchYearDay z2).2) := by
  have a := marchYearDay_spec z1
  have b := marchYearDay_spec z2
  by_cases hlt : (marchYearDay z1).1 < (marchYearDay z2).1
  · exact Or.inl hlt
  · right
    have hge : (marchYearDay z2).1 ≤ (marchYearDay z1).1 := by omega
    by_cases heq : (marchYearDay z1).1 = (marchYearDay z2).1
    · refine ⟨heq, ?_⟩
      rw [heq] at a
      omega
    · exfalso
      have hm := daysBeforeMarchYear_mono ((marchYearDay z2).1 + 1) (marchYearDay z1).1 (by omega)
      omega

/-- A later day has a later calendar date. -/
theorem civilFromDays_strictMono (z1 z2 : Int) (h : z1 < z2) :
    (civilFromDays z1).earlier (civilFromDays z2) := by
  have a := marchYearDay_spec z1
  have b := marchYearDay_spec z2
  have m := marchYearDay_mono z1 z2 h
  simp only [civilFromDays, CivilDate.earlier]
  generalize (marchYearDay z1).1 = y1 at *
  generalize (marchYearDay z1).2 = d1 at *
  generalize (marchYearDay z2).1 = y2 at *
  generalize (marchYearDay z2).2 = d2 at *
  split_ifs <;> omega

/-! ## Traces -/

theorem returnedItems_append (a b : List Event) :
    returnedItems (a ++ b) = returnedItems a ++ returnedItems b := by
  induction a with
  | nil => rfl
  | cons e rest ih =>
    cases e with
    | search req ans =>
      cases ans with
      | ok res => simp [returnedItems, ih]
      | error err => simp [returnedItems, ih]
    | _ => simp [returnedItems, ih]

theorem writesOf_append (a b : List Event) :
    writesOf (a ++ b) = writesOf a ++ writesOf b := by
  induction a with
  | nil => rfl
  | cons e rest ih =>
    cases e with
    | writeFile file data perm err =>
      cases err with
      | none => simp [writesOf, ih]
      | some x => simp [writesOf, ih]
    | _ => simp [writesOf, ih]

theorem fileEvents_append (a b : List Event) :
    fileEvents (a ++ b) = fileEvents a ++ fileEvents b := by
  induction a with
  | nil => rfl
  | cons e rest ih => cases e <;> simp [fileEvents, ih]

/-- What one pass through the body of the item loop does. -/
theorem exportItem_spec (env : Env) (opts : ExportOptions) (st : LoopState) (tr : List Event)
    (item : MediaItem) :
    ∃ d, (exportItem env opts st tr item).2 = tr ++ d ∧ returnedItems d = [] ∧
      Quiet d ∧
      match (exportItem env opts st tr item).1 with
      | .ok st1 => ∃ t w, parsedCreationTime item = some t ∧
          st1.dateCreatedMin = updateMin st.dateCreatedMin t ∧
          st1.dateCreatedMax = updateMax st.dateCreatedMax t ∧
          st1.itemListElement = st.itemListElement ++ [itemRef opts item] ∧
          writesOf d = [w] ∧ IsItemWrite env opts item w
      | .error _ => writesOf d = [] := by
  unfold exportItem
  simp only [List.append_assoc, List.singleton_append, List.cons_append, List.nil_append]
  cases hp : timeParse .rfc3339 item.MediaMetadata.CreationTime with
  | error err => exact ⟨_, rfl, rfl, ⟨rfl, rfl, rfl⟩, rfl⟩
  | ok t =>
    simp only []
    cases hm : env.marshalIndent (photographStructuredData item t) with
    | error err => exact ⟨_, rfl, rfl, ⟨rfl, rfl, rfl⟩, rfl⟩
    | ok b =>
      simp only []
      generalize env.mkdirAll _ _ _ = mk
      cases mk with
      | some err => exact ⟨_, rfl, rfl, ⟨rfl, rfl, rfl⟩, rfl⟩
      | none =>
        simp only []
        generalize env.writeFile _ _ _ _ = wr
        cases wr with
        | some err => exact ⟨_, rfl, rfl, ⟨rfl, rfl, rfl⟩, rfl⟩
        | none =>
          refine ⟨_, rfl, rfl, ⟨rfl, rfl, rfl⟩, t, _, ?_, rfl, rfl, rfl, rfl, t, b, hp, hm, rfl⟩
          simp [parsedCreationTime, hp]


theorem exportedAlbums_append (a b : List Event) :
    exportedAlbums (a ++ b) = exportedAlbums a ++ exportedAlbums b := by
  simp [exportedAlbums]

theorem skippedAlbums_append (a b : List Event) :
    skippedAlbums (a ++ b) = skippedAlbums a ++ skippedAlbums b := by
  simp [skippedAlbums]

theorem noAlbumsMessages_append (a b : List Event) :
    noAlbumsMessages (a ++ b) = noAlbumsMessages a + noAlbumsMessages b := by
  simp [noAlbumsMessages]

theorem quiet_append {a b : List Event} (ha : Quiet a) (hb : Quiet b) : Quiet (a ++ b) := by
  obtain ⟨a1, a2, a3⟩ := ha
  obtain ⟨b1, b2, b3⟩ := hb
  refine ⟨?_, ?_, ?_⟩
  · rw [exportedAlbums_append, a1, b1]; rfl
  · rw [skippedAlbums_append, a2, b2]; rfl
  · rw [noAlbumsMessages_append, a3, b3]

theorem quiet_nil : Quiet [] := ⟨rfl, rfl, rfl⟩

theorem processed_nil (env : Env) (opts : ExportOptions) (st : LoopState) :
    Processed env opts st [] [] st :=
  ⟨[], rfl, rfl, rfl, by simp, List.Forall₂.nil⟩

theorem processed_append {env : Env} {opts : ExportOptions} {st st1 st2 : LoopState}
    {items1 items2 : List MediaItem} {ws1 ws2 : List (String × String)}
    (h1 : Processed env opts st items1 ws1 st1) (h2 : Processed env opts st1 items2 ws2 st2) :
    Processed env opts st (items1 ++ items2) (ws1 ++ ws2) st2 := by
  obtain ⟨t1, p1, mn1, mx1, il1, w1⟩ := h1
  obtain ⟨t2, p2, mn2, mx2, il2, w2⟩ := h2
  refine ⟨t1 ++ t2, ?_, ?_, ?_, ?_, List.rel_append w1 w2⟩
  · simp [p1, p2]
  · rw [List.foldl_append, ← mn1, mn2]
  · rw [List.foldl_append, ← mx1, mx2]
  · rw [il2, il1]; simp

/-- What the loop over the items of one page does. -/
theorem exportItems_spec (env : Env) (opts : ExportOptions) (items : List MediaItem) :
    ∀ (st : LoopState) (tr : List Event),
    ∃ d, (exportItems env opts st tr items).2 = tr ++ d ∧ returnedItems d = [] ∧ Quiet d ∧
      match (exportItems env opts st tr items).1 with
      | .ok st1 => Processed env opts st items (writesOf d) st1
      | .error _ => ∃ finished, finished <+: items ∧ finished ≠ items ∧
          List.Forall₂ (IsItemWrite env opts) finished (writesOf d) := by
  induction items with
  | nil =>
    intro st tr
    exact ⟨[], by simp [exportItems], rfl, quiet_nil, processed_nil env opts st⟩
  | cons item rest ih =>
    intro st tr
    obtain ⟨d1, e1, r1, q1, h1⟩ := exportItem_spec env opts st tr item
    unfold exportItems
    cases hx : exportItem env opts st tr item with
    | mk res tr1 =>
      rw [hx] at e1 h1
      simp only at e1 h1
      cases res with
      | error err =>
        simp only
        refine ⟨d1, e1, r1, q1, [], List.nil_prefix, by simp, ?_⟩
        rw [h1]
        exact List.Forall₂.nil
      | ok st1 =>
        simp only
        obtain ⟨t, w, hp, hmn, hmx, hil, hw, hiw⟩ := h1
        have hone : Processed env opts st [item] (writesOf d1) st1 := by
          refine ⟨[t], by simp [hp], by simp [hmn], by simp [hmx], by simp [hil], ?_⟩
          rw [hw]
          exact List.Forall₂.cons hiw List.Forall₂.nil
        obtain ⟨d2, e2, r2, q2, h2⟩ := ih st1 tr1
        refine ⟨d1 ++ d2, by rw [e2, e1, List.append_assoc], ?_, quiet_append q1 q2, ?_⟩
        · rw [returnedItems_append, r1, r2]; rfl
        · cases hy : (exportItems env opts st1 tr1 rest).1 with
          | ok st2 =>
            rw [hy] at h2
            simp only at h2 ⊢
            rw [writesOf_append]
            exact processed_append hone h2
          | error err =>
            rw [hy] at h2
            simp only at h2 ⊢
            obtain ⟨fin, hpre, hne, hf⟩ := h2
            refine ⟨item :: fin, ?_, ?_, ?_⟩
            · exact (List.prefix_cons_inj item).mpr hpre
            · simpa using hne
            · rw [writesOf_append, hw]
              exact List.Forall₂.cons hiw hf


/-- What the loop over the pages does. -/
theorem searchLoop_spec (env : Env) (opts : ExportOptions) (fuel : Nat) :
    ∀ (search : SearchMediaItemsRequest) (st : LoopState) (tr : List Event),
    ∃ d, (searchLoop env opts fuel search st tr).2 = tr ++ d ∧ Quiet d ∧
      match (searchLoop env opts fuel search st tr).1 with
      | .done st1 => Processed env opts st (returnedItems d) (writesOf d) st1
      | .failed _ => ∃ finished, finished <+: returnedItems d ∧
          List.Forall₂ (IsItemWrite env opts) finished (writesOf d)
      | .unfinished => List.Forall₂ (IsItemWrite env opts) (returnedItems d) (writesOf d) := by
  induction fuel with
  | zero =>
    intro search st tr
    exact ⟨[], by simp [searchLoop], quiet_nil, List.Forall₂.nil⟩
  | succ fuel ih =>
    intro search st tr
    unfold searchLoop
    simp only
    cases ha : env.search tr search with
    | error err =>
      exact ⟨[.search search (.error err)], rfl, ⟨rfl, rfl, rfl⟩, [], List.nil_prefix,
        List.Forall₂.nil⟩
    | ok res =>
      simp only
      obtain ⟨d1, e1, r1, q1, h1⟩ :=
        exportItems_spec env opts res.MediaItems st (tr ++ [.search search (.ok res)])
      have hq0 : Quiet [Event.search search (.ok res)] := ⟨rfl, rfl, rfl⟩
      have hr0 : returnedItems ([Event.search search (.ok res)] ++ d1) = res.MediaItems := by
        rw [returnedItems_append, r1]; simp [returnedItems]
      have hw0 : writesOf ([Event.search search (.ok res)] ++ d1) = writesOf d1 := by
        rw [writesOf_append]; rfl
      cases hx : exportItems env opts st (tr ++ [.search search (.ok res)]) res.MediaItems with
      | mk r tr1 =>
        rw [hx] at e1 h1
        simp only at e1 h1
        cases r with
        | error err =>
          simp only
          obtain ⟨fin, hpre, _, hf⟩ := h1
          refine ⟨[.search search (.ok res)] ++ d1, by rw [e1, List.append_assoc],
            quiet_append hq0 q1, fin, ?_, ?_⟩
          · rw [hr0]; exact hpre
          · rw [hw0]; exact hf
        | ok st1 =>
          simp only
          by_cases htok : res.NextPageToken = ""
          · rw [if_pos htok]
            refine ⟨[.search search (.ok res)] ++ d1, by rw [e1, List.append_assoc],
              quiet_append hq0 q1, ?_⟩
            simp only
            rw [hr0, hw0]
            exact h1
          · rw [if_neg htok]
            obtain ⟨d2, e2, q2, h2⟩ :=
              ih { search with PageToken := res.NextPageToken } st1 tr1
            have hr : returnedItems ([Event.search search (.ok res)] ++ d1 ++ d2)
                = res.MediaItems ++ returnedItems d2 := by
              rw [returnedItems_append, hr0]
            have hw : writesOf ([Event.search search (.ok res)] ++ d1 ++ d2)
                = writesOf d1 ++ writesOf d2 := by
              rw [writesOf_append, hw0]
            refine ⟨[.search search (.ok res)] ++ d1 ++ d2,
              by rw [e2, e1]; simp only [List.append_assoc], quiet_append (quiet_append hq0 q1) q2, ?_⟩
            cases hy : (searchLoop env opts fuel
                { search with PageToken := res.NextPageToken } st1 tr1).1 with
            | done st2 =>
              rw [hy] at h2
              simp only at h2 ⊢
              rw [hr, hw]
              exact processed_append h1 h2
            | failed err =>
              rw [hy] at h2
              simp only at h2 ⊢
              obtain ⟨fin, hpre, hf⟩ := h2
              refine ⟨res.MediaItems ++ fin, ?_, ?_⟩
              · rw [hr]; exact (List.prefix_append_right_inj _).mpr hpre
              · rw [hw]
                obtain ⟨_, _, _, _, _, hall⟩ := h1
                exact List.rel_append hall hf
            | unfinished =>
              rw [hy] at h2
              simp only at h2 ⊢
              rw [hr, hw]
              obtain ⟨_, _, _, _, _, hall⟩ := h1
              exact List.rel_append hall h2

/-- What the writing of the album document does. -/
theorem writeAlbum_spec (env : Env) (album : Album) (opts : ExportOptions) (st : LoopState)
    (tr : List Event) :
    ∃ d, (writeAlbum env album opts st tr).2 = tr ++ d ∧ returnedItems d = [] ∧ Quiet d ∧
      match (writeAlbum env album opts st tr).1 with
      | .done _ => ∃ b pre, env.marshalIndent (albumStructuredData album st) = .ok b ∧
          d = pre ++ [.writeFile (albumFile env opts album) (b ++ "\n") 0o755 none] ∧
          writesOf pre = []
      | .failed _ => writesOf d = []
      | .unfinished => False := by
  unfold writeAlbum
  simp only [List.append_assoc, List.singleton_append, List.cons_append, List.nil_append]
  cases hm : env.marshalIndent (albumStructuredData album st) with
  | error err => exact ⟨[], by simp, rfl, ⟨rfl, rfl, rfl⟩, rfl⟩
  | ok b =>
    simp only []
    generalize env.mkdirAll _ _ _ = mk
    cases mk with
    | some err => exact ⟨_, rfl, rfl, ⟨rfl, rfl, rfl⟩, rfl⟩
    | none =>
      simp only []
      generalize env.writeFile _ _ _ _ = wr
      cases wr with
      | some err => exact ⟨_, rfl, rfl, ⟨rfl, rfl, rfl⟩, rfl⟩
      | none => exact ⟨_, rfl, rfl, ⟨rfl, rfl, rfl⟩, b, [_], rfl, rfl, rfl⟩

/-- What a call of `exportAlbum` does. -/
theorem exportAlbum_spec (env : Env) (fuel : Nat) (album : Album) (opts : ExportOptions)
    (tr : List Event) :
    ∃ d, (exportAlbum env fuel album opts tr).2 = tr ++ d ∧
      exportedAlbums d = [album] ∧ skippedAlbums d = [] ∧ noAlbumsMessages d = 0 ∧
      match (exportAlbum env fuel album opts tr).1 with
      | .done _ => ∃ st b pre,
          Processed env opts initialState (returnedItems d) (writesOf pre) st ∧
          env.marshalIndent (albumStructuredData album st) = .ok b ∧
          d = pre ++ [.writeFile (albumFile env opts album) (b ++ "\n") 0o755 none]
      | .failed _ => ∃ finished, finished <+: returnedItems d ∧
          List.Forall₂ (IsItemWrite env opts) finished (writesOf d)
      | .unfinished => List.Forall₂ (IsItemWrite env opts) (returnedItems d) (writesOf d) := by
  obtain ⟨d1, e1, ⟨q1, q2, q3⟩, h1⟩ := searchLoop_spec env opts fuel
    { AlbumId := album.Id, PageSize := 100, PageToken := "" } initialState
    (tr ++ [.printf "%s %s\n" [album.Id, album.Title]])
  have hex : ∀ d2, exportedAlbums d2 = [] →
      exportedAlbums ([Event.printf "%s %s\n" [album.Id, album.Title]] ++ d1 ++ d2) = [album] := by
    intro d2 h2
    rw [exportedAlbums_append, exportedAlbums_append, q1, h2]; rfl
  have hsk : ∀ d2, skippedAlbums d2 = [] →
      skippedAlbums ([Event.printf "%s %s\n" [album.Id, album.Title]] ++ d1 ++ d2) = [] := by
    intro d2 h2
    rw [skippedAlbums_append, skippedAlbums_append, q2, h2]; rfl
  have hno : ∀ d2, noAlbumsMessages d2 = 0 →
      noAlbumsMessages ([Event.printf "%s %s\n" [album.Id, album.Title]] ++ d1 ++ d2) = 0 := by
    intro d2 h2
    rw [noAlbumsMessages_append, noAlbumsMessages_append, q3, h2]; rfl
  have hr : ∀ d2, returnedItems d2 = [] →
      returnedItems ([Event.printf "%s %s\n" [album.Id, album.Title]] ++ d1 ++ d2)
        = returnedItems d1 := by
    intro d2 h2
    rw [returnedItems_append, returnedItems_append, h2]; simp [returnedItems]
  have hw : ∀ d2,
      writesOf ([Event.printf "%s %s\n" [album.Id, album.Title]] ++ d1 ++ d2)
        = writesOf d1 ++ writesOf d2 := by
    intro d2
    rw [writesOf_append, writesOf_append]; rfl
  unfold exportAlbum
  dsimp only
  cases hx : searchLoop env opts fuel { AlbumId := album.Id, PageSize := 100, PageToken := "" }
      initialState (tr ++ [.printf "%s %s\n" [album.Id, album.Title]]) with
  | mk r tr1 =>
    rw [hx] at e1 h1
    dsimp only at e1 h1
    cases r with
    | failed err =>
      obtain ⟨fin, hpre, hf⟩ := h1
      refine ⟨[.printf "%s %s\n" [album.Id, album.Title]] ++ d1 ++ [],
        by rw [e1]; simp, hex [] rfl, hsk [] rfl, hno [] rfl, fin, ?_, ?_⟩
      · rw [hr [] rfl]; exact hpre
      · rw [hw []]; simpa [writesOf] using hf
    | unfinished =>
      refine ⟨[.printf "%s %s\n" [album.Id, album.Title]] ++ d1 ++ [],
        by rw [e1]; simp, hex [] rfl, hsk [] rfl, hno [] rfl, ?_⟩
      dsimp only
      rw [hr [] rfl, hw []]; simpa [writesOf] using h1
    | done st =>
      dsimp only
      obtain ⟨d2, e2, r2, ⟨x1, x2, x3⟩, h2⟩ := writeAlbum_spec env album opts st tr1
      refine ⟨[.printf "%s %s\n" [album.Id, album.Title]] ++ d1 ++ d2,
        by rw [e2, e1]; simp, hex d2 x1, hsk d2 x2, hno d2 x3, ?_⟩
      cases hy : (writeAlbum env album opts st tr1).1 with
      | unfinished => rw [hy] at h2; exact h2.elim
      | failed err =>
        rw [hy] at h2
        dsimp only at h2 ⊢
        obtain ⟨_, _, _, _, _, hall⟩ := h1
        refine ⟨_, List.prefix_refl _, ?_⟩
        rw [hr d2 r2, hw, h2]; simpa using hall
      | done u =>
        rw [hy] at h2
        dsimp only at h2 ⊢
        obtain ⟨b, pre, hm, hd, hpw⟩ := h2
        have hrp : returnedItems pre = [] := by
          have := r2
          rw [hd, returnedItems_append] at this
          simpa using (List.append_eq_nil.mp this).1
        refine ⟨st, b, [.printf "%s %s\n" [album.Id, album.Title]] ++ d1 ++ pre, ?_, hm, ?_⟩
        · rw [hr d2 r2, hw, hpw]; simpa using h1
        · rw [hd]; simp

/-! ## Documents -/

theorem lookupKey_setKey_self (key : String) (value : Json) (fields : List (String × Json)) :
    lookupKey key (setKey key value fields) = some value := by
  induction fields with
  | nil => simp [setKey, lookupKey]
  | cons kv rest ih =>
    obtain ⟨k, v⟩ := kv
    by_cases h : k = key
    · simp [setKey, lookupKey, h]
    · simp [setKey, lookupKey, h, ih]

theorem lookupKey_setKey_ne (key other : String) (value : Json) (fields : List (String × Json))
    (hne : other ≠ key) :
    lookupKey key (setKey other value fields) = lookupKey key fields := by
  induction fields with
  | nil => simp [setKey, lookupKey, hne]
  | cons kv rest ih =>
    obtain ⟨k, v⟩ := kv
    by_cases h : k = other
    · have hk : ¬ k = key := by rw [h]; exact hne
      simp [setKey, lookupKey, h, hne, hk]
    · by_cases hk : k = key
      · subst hk
        simp [setKey, lookupKey, h]
      · simp [setKey, lookupKey, h, hk, ih]

theorem photograph_associatedMedia (item : MediaItem) (dateCreated : Time) :
    (photographStructuredData item dateCreated).get "associatedMedia"
      = some (.obj (associatedMedia item dateCreated)) := by
  simp only [photographStructuredData, Json.get]
  exact lookupKey_setKey_self _ _ _

/-- C7: whatever the other fields of a media item with base URL `u` are, the
`thumbnail` value of the `associatedMedia` object of its Photograph document
is the list of exactly four ImageObject entries 1280x960 (`u=w1280-h960`),
640x480 (`u=w640-h480`), 200x200 (`u=w200-h200-c`) and 96x96
(`u=w96-h96-c`), in this order. -/
theorem thumbnail_four_fixed_renditions (item : MediaItem) (dateCreated : Time) :
    ∃ media : Json,
      (photographStructuredData item dateCreated).get "associatedMedia" = some media ∧
      media.get "thumbnail" = some (.arr
        [ .obj [("@type", .str "ImageObject"), ("contentUrl", .str (item.BaseUrl ++ "=w1280-h960")),
            ("height", .int 960), ("width", .int 1280)],
          .obj [("@type", .str "ImageObject"), ("contentUrl", .str (item.BaseUrl ++ "=w640-h480")),
            ("height", .int 480), ("width", .int 640)],
          .obj [("@type", .str "ImageObject"), ("contentUrl", .str (item.BaseUrl ++ "=w200-h200-c")),
            ("height", .int 200), ("width", .int 200)],
          .obj [("@type", .str "ImageObject"), ("contentUrl", .str (item.BaseUrl ++ "=w96-h96-c")),
            ("height", .int 96), ("width", .int 96)] ]) := by
  refine ⟨_, photograph_associatedMedia item dateCreated, ?_⟩
  simp only [Json.get, associatedMedia]
  exact lookupKey_setKey_self _ _ _

/-- C6: the list of EXIF entries holds exactly one PropertyValue entry for
each of the five sub-fields that is present (make, model, aperture,
exposure, iso: non-empty strings, non-zero numbers), in that order and with
those identifiers, and nothing else; and the `associatedMedia` object of the
Photograph document has the key `exifData` (bound to that list) if and only
if the list is non-empty. -/
theorem exifData_one_entry_per_present_field (item : MediaItem) (dateCreated : Time) :
    exifData item =
      (if item.MediaMetadata.Photo.CameraMake ≠ "" then
        [Json.obj [("@type", .str "PropertyValue"), ("identifier", .str "make"),
          ("value", .str item.MediaMetadata.Photo.CameraMake)]] else []) ++
      (if item.MediaMetadata.Photo.CameraModel ≠ "" then
        [Json.obj [("@type", .str "PropertyValue"), ("identifier", .str "model"),
          ("value", .str item.MediaMetadata.Photo.CameraModel)]] else []) ++
      (if item.MediaMetadata.Photo.ApertureFNumber.isNonZero = true then
        [Json.obj [("@type", .str "PropertyValue"), ("identifier", .str "aperture"),
          ("value", .str (apertureValue item.MediaMetadata.Photo.ApertureFNumber))]] else []) ++
      (if item.MediaMetadata.Photo.ExposureTime ≠ "" then
        [Json.obj [("@type", .str "PropertyValue"), ("identifier", .str "exposure"),
          ("value", .str item.MediaMetadata.Photo.ExposureTime)]] else []) ++
      (if item.MediaMetadata.Photo.IsoEquivalent ≠ 0 then
        [Json.obj [("@type", .str "PropertyValue"), ("identifier", .str "iso"),
          ("value", .int item.MediaMetadata.Photo.IsoEquivalent)]] else []) ∧
    ∃ media : Json,
      (photographStructuredData item dateCreated).get "associatedMedia" = some media ∧
      ((∃ v, media.get "exifData" = some v) ↔ exifData item ≠ []) ∧
      (exifData item ≠ [] → media.get "exifData" = some (.arr (exifData item))) := by
  constructor
  · unfold exifData propertyValue
    by_cases h1 : item.MediaMetadata.Photo.CameraMake = "" <;>
    by_cases h2 : item.MediaMetadata.Photo.CameraModel = "" <;>
    by_cases h3 : item.MediaMetadata.Photo.ApertureFNumber.isNonZero = true <;>
    by_cases h4 : item.MediaMetadata.Photo.ExposureTime = "" <;>
    by_cases h5 : item.MediaMetadata.Photo.IsoEquivalent = 0 <;>
    simp [h1, h2, h3, h4, h5]
  · refine ⟨_, photograph_associatedMedia item dateCreated, ?_⟩
    have hkey : ∀ fields : List (String × Json),
        lookupKey "exifData" (setKey "thumbnail" (.arr (thumbnail item)) fields)
          = lookupKey "exifData" fields :=
      fun fields => lookupKey_setKey_ne _ _ _ _ (by decide)
    simp only [Json.get, associatedMedia]
    by_cases hlen : 0 < (exifData item).length
    · have hne : exifData item ≠ [] := by
        intro h; rw [h] at hlen; exact absurd hlen (by decide)
      rw [if_pos hlen, hkey, lookupKey_setKey_self]
      exact ⟨⟨fun _ => hne, fun _ => ⟨_, rfl⟩⟩, fun _ => rfl⟩
    · have he : exifData item = [] := by
        cases h : exifData item with
        | nil => rfl
        | cons a l => rw [h] at hlen; exact absurd (by simp) hlen
      rw [if_neg hlen, hkey]
      have hnone : lookupKey "exifData"
          [ ("@type", Json.str "ImageObject"), ("name", .str item.Filename),
            ("height", .int item.MediaMetadata.Height), ("width", .int item.MediaMetadata.Width),
            ("dateCreated", .str (dateCreated.Format .rfc3339)) ] = none := by
        simp [lookupKey]
      rw [hnone]
      simp [he]

/-! ## Paths -/

theorem bigEndianBytes_length (count x : Nat) : (bigEndianBytes count x).length = count := by
  induction count with
  | zero => rfl
  | succ n ih => simp [bigEndianBytes, ih]

theorem sha1Sum_length (msg : List Nat) : (sha1Sum msg).length = 20 := by
  simp [sha1Sum, bigEndianBytes_length]

theorem hexDigit_mem (d : Nat) : hexDigit d ∈ "0123456789abcdef".data := by
  have h : d % 16 < 16 := Nat.mod_lt _ (by decide)
  unfold hexDigit
  generalize d % 16 = r at h
  interval_cases r <;> decide

theorem hexString_data_length (bs : List Nat) : (hexString bs).data.length = 2 * bs.length := by
  induction bs with
  | nil => rfl
  | cons b rest ih =>
    simp only [hexString, List.foldr_cons, List.length_cons] at ih ⊢
    omega

theorem hexString_data_mem (bs : List Nat) :
    ∀ c ∈ (hexString bs).data, c ∈ "0123456789abcdef".data := by
  induction bs with
  | nil => intro c hc; simp [hexString] at hc
  | cons b rest ih =>
    intro c hc
    simp only [hexString, List.foldr_cons, List.mem_cons] at hc
    rcases hc with rfl | rfl | hc
    · exact hexDigit_mem _
    · exact hexDigit_mem _
    · exact ih c hc

/-- C5: the relative path of the document of the media item `id` is
`"items/" ++ b ++ "/" ++ id ++ ".json"`, where `b` consists of the first two
characters of the forty-character lowercase hexadecimal SHA-1 digest of the
bytes of `id` (so `b` is exactly two characters out of `0-9a-f` and a
function of `id` alone); the relative path of the document of the album
`albumId` is `"albums/" ++ albumId ++ ".json"`. -/
theorem graph_paths_are_hash_bucketed (id albumId : String) :
    (hexString (sha1Sum (stringBytes id))).length = 40 ∧
    (∃ c1 c2 rest, (hexString (sha1Sum (stringBytes id))).data = c1 :: c2 :: rest ∧
      c1 ∈ "0123456789abcdef".data ∧ c2 ∈ "0123456789abcdef".data ∧
      itemGraphPath id = "items/" ++ String.mk [c1, c2] ++ "/" ++ id ++ ".json") ∧
    albumGraphPath albumId = "albums/" ++ albumId ++ ".json" := by
  have hlen : (hexString (sha1Sum (stringBytes id))).data.length = 40 := by
    rw [hexString_data_length, sha1Sum_length]
  have hmem := hexString_data_mem (sha1Sum (stringBytes id))
  refine ⟨hlen, ?_, rfl⟩
  cases hd : (hexString (sha1Sum (stringBytes id))).data with
  | nil => rw [hd] at hlen; simp at hlen
  | cons c1 l1 =>
    cases l1 with
    | nil => rw [hd] at hlen; simp at hlen
    | cons c2 rest =>
      refine ⟨c1, c2, rest, rfl, hmem c1 (by rw [hd]; simp), hmem c2 (by rw [hd]; simp), ?_⟩
      unfold itemGraphPath firstTwo
      rw [hd]
      rfl

set_option maxRecDepth 1000000 in
/-- The bucket directories of the identifiers `abc` and `abd`. -/
theorem itemGraphPath_abc_abd :
    itemGraphPath "abc" = "items/a9/abc.json" ∧ itemGraphPath "abd" = "items/cb/abd.json" := by
  decide

/-! ## Decimal numerals -/

theorem digitChar_spec (d : Nat) : isDigit (digitChar d) = true ∧ digitVal (digitChar d) = d % 10 := by
  have h : d % 10 < 10 := Nat.mod_lt _ (by decide)
  unfold digitChar
  generalize d % 10 = r at h
  interval_cases r <;> decide

theorem natOfDigits_append (a b : List Char) :
    natOfDigits (a ++ b) = natOfDigits a * 10 ^ b.length + natOfDigits b := by
  induction b using List.reverseRecOn with
  | nil => simp [natOfDigits]
  | append_singleton l c ih =>
    have h1 : natOfDigits (a ++ (l ++ [c])) = natOfDigits (a ++ l) * 10 + digitVal c := by
      rw [← List.append_assoc]; simp [natOfDigits, List.foldl_append]
    have h2 : natOfDigits (l ++ [c]) = natOfDigits l * 10 + digitVal c := by
      simp [natOfDigits, List.foldl_append]
    rw [h1, h2, ih]
    simp only [List.length_append, List.length_singleton, pow_succ]
    ring

theorem decimalDigitsAux_acc (fuel : Nat) :
    ∀ (n : Nat) (acc : List Char), n < fuel →
      decimalDigitsAux fuel n acc = decimalDigitsAux fuel n [] ++ acc := by
  induction fuel with
  | zero => intro n acc h; omega
  | succ fuel ih =>
    intro n acc h
    unfold decimalDigitsAux
    by_cases h10 : n < 10
    · simp [h10]
    · rw [if_neg h10, if_neg h10, ih (n / 10) (digitChar n :: acc) (by omega),
        ih (n / 10) [digitChar n] (by omega)]
      simp

/-- The digits produced for `n` are digits, are not empty, denote `n`, and
are at most `k` when `n < 10 ^ k`. -/
theorem decimalDigitsAux_spec (fuel : Nat) :
    ∀ (n : Nat), n < fuel →
      (∀ c ∈ decimalDigitsAux fuel n [], isDigit c = true) ∧
      decimalDigitsAux fuel n [] ≠ [] ∧
      natOfDigits (decimalDigitsAux fuel n []) = n ∧
      ∀ k, 0 < k → n < 10 ^ k → (decimalDigitsAux fuel n []).length ≤ k := by
  induction fuel with
  | zero => intro n h; omega
  | succ fuel ih =>
    intro n h
    unfold decimalDigitsAux
    by_cases h10 : n < 10
    · rw [if_pos h10]
      have hd := digitChar_spec n
      refine ⟨?_, by simp, ?_, ?_⟩
      · intro c hc; simp at hc; rw [hc]; exact hd.1
      · simp [natOfDigits, hd.2, Nat.mod_eq_of_lt h10]
      · intro k hk _; simpa using hk
    · rw [if_neg h10, decimalDigitsAux_acc fuel (n / 10) [digitChar n] (by omega)]
      obtain ⟨i1, i2, i3, i4⟩ := ih (n / 10) (by omega)
      have hd := digitChar_spec n
      refine ⟨?_, by simp, ?_, ?_⟩
      · intro c hc
        rw [List.mem_append] at hc
        rcases hc with hc | hc
        · exact i1 c hc
        · simp at hc; rw [hc]; exact hd.1
      · rw [natOfDigits_append, i3]
        simp [natOfDigits, hd.2]
        omega
      · intro k hk hlt
        rw [List.length_append]
        simp only [List.length_singleton]
        have hk2 : 2 ≤ k := by
          by_contra hcon
          have : k = 1 := by omega
          rw [this] at hlt
          omega
        have hlt2 : n / 10 < 10 ^ (k - 1) := by
          have hp : 10 ^ k = 10 ^ (k - 1) * 10 := by
            rw [← pow_succ]; congr 1; omega
          rw [hp] at hlt
          exact Nat.div_lt_of_lt_mul (by omega)
        have := i4 (k - 1) (by omega) hlt2
        omega

theorem decimalDigits_spec (n : Nat) :
    (∀ c ∈ decimalDigits n, isDigit c = true) ∧ decimalDigits n ≠ [] ∧
      natOfDigits (decimalDigits n) = n ∧
      ∀ k, 0 < k → n < 10 ^ k → (decimalDigits n).length ≤ k :=
  decimalDigitsAux_spec (n + 1) n (Nat.lt_succ_self n)

/-! ## Trimming -/

theorem dropTrailing_cons_of_not (p : Char → Bool) (c : Char) (l : List Char) (h : p c = false) :
    dropTrailing p (c :: l) = c :: dropTrailing p l := by
  rw [dropTrailing]
  split
  · rename_i heq; simp [h, heq]
  · rfl

theorem dropTrailing_append_of_not (p : Char → Bool) (a : List Char) (c : Char) (b : List Char)
    (h : p c = false) :
    dropTrailing p (a ++ c :: b) = a ++ c :: dropTrailing p b := by
  induction a with
  | nil => exact dropTrailing_cons_of_not p c b h
  | cons x a ih =>
    rw [List.cons_append, dropTrailing, ih]
    split
    · rename_i heq; simp at heq
    · rfl

/-- The input is what is kept followed by dropped characters, which all satisfy `p`. -/
theorem dropTrailing_decomp (p : Char → Bool) (l : List Char) :
    ∃ dropped, l = dropTrailing p l ++ dropped ∧ ∀ c ∈ dropped, p c = true := by
  induction l with
  | nil => exact ⟨[], rfl, by simp⟩
  | cons x l ih =>
    obtain ⟨dr, hd, hp⟩ := ih
    rw [dropTrailing]
    split
    · rename_i heq
      rw [heq] at hd
      by_cases hx : p x = true
      · refine ⟨x :: l, by simp [hx], ?_⟩
        intro c hc
        rcases List.mem_cons.mp hc with rfl | hc
        · exact hx
        · rw [hd] at hc; exact hp c (by simpa using hc)
      · refine ⟨l, by simp [hx], ?_⟩
        intro c hc
        rw [hd] at hc; exact hp c (by simpa using hc)
    · refine ⟨dr, ?_, hp⟩
      rw [List.cons_append, ← hd]

/-- The last character kept does not satisfy `p`. -/
theorem dropTrailing_getLast (p : Char → Bool) (l : List Char) :
    ∀ c, (dropTrailing p l).getLast? = some c → p c = false := by
  induction l with
  | nil => intro c h; simp [dropTrailing] at h
  | cons x l ih =>
    intro c h
    rw [dropTrailing] at h
    split at h
    · by_cases hx : p x = true
      · simp [hx] at h
      · simp [hx] at h
        rw [← h]; simpa using hx
    · rename_i kept hne
      cases hk : dropTrailing p l with
      | nil => exact absurd hk (by simpa using hne)
      | cons y ys =>
        rw [hk] at h ih
        rw [List.getLast?_cons_cons] at h
        exact ih c h

/-! ## The verb `%f` -/

/-- The integer printed by `%f` is within one half of the number times `10^6`. -/
theorem scaled6_close (x : Float64) :
    |(x.scaled6 : ℚ) - (x.mant : ℚ) * (2 : ℚ) ^ x.exp * 10 ^ 6| ≤ 1 / 2 := by
  unfold Float64.scaled6
  by_cases h : 0 ≤ x.exp
  · rw [if_pos h]
    obtain ⟨k, hk⟩ := Int.eq_ofNat_of_zero_le h
    rw [hk]
    simp only [Int.toNat_ofNat, zpow_natCast]
    push_cast
    norm_num
  · rw [if_neg h]
    obtain ⟨k, hk⟩ : ∃ k : ℕ, x.exp = -(k : ℤ) := ⟨(-x.exp).toNat, by omega⟩
    rw [hk]
    simp only [neg_neg, Int.toNat_ofNat, zpow_neg, zpow_natCast]
    generalize hnum : x.mant * 10 ^ 6 = num
    generalize hden : 2 ^ k = den
    have hdpos : 0 < den := by rw [← hden]; exact Nat.pow_pos (by decide)
    have hdq : (0 : ℚ) < (den : ℚ) := by exact_mod_cast hdpos
    have hdiv : (num : ℚ) = (den : ℚ) * ((num / den : ℕ) : ℚ) + ((num % den : ℕ) : ℚ) := by
      exact_mod_cast (Nat.div_add_mod num den).symm
    have hR : (x.mant : ℚ) * ((2 : ℚ) ^ k)⁻¹ * 10 ^ 6 = (num : ℚ) / (den : ℚ) := by
      rw [← hnum, ← hden]
      push_cast
      field_simp
      left
      norm_num
    rw [hR]
    have key : ∀ N : ℚ, |N * den - num| ≤ den / 2 → |N - num / den| ≤ 1 / 2 := by
      intro N hN
      have : N - num / den = (N * den - num) / den := by field_simp
      rw [this, abs_div, abs_of_pos hdq, div_le_iff₀ hdq]
      linarith
    have hr0 : (0 : ℚ) ≤ ((num % den : ℕ) : ℚ) := by positivity
    split_ifs with h1 h2 h3
    · apply key
      have h1q : (2 : ℚ) * ((num % den : ℕ) : ℚ) < (den : ℚ) := by exact_mod_cast h1
      rw [abs_le]
      constructor <;> nlinarith
    · apply key
      have h2q : (den : ℚ) < (2 : ℚ) * ((num % den : ℕ) : ℚ) := by exact_mod_cast h2
      have hlt : ((num % den : ℕ) : ℚ) < (den : ℚ) := by exact_mod_cast Nat.mod_lt num hdpos
      push_cast
      rw [abs_le]
      constructor <;> nlinarith
    · apply key
      have heq : (2 : ℚ) * ((num % den : ℕ) : ℚ) = (den : ℚ) := by
        have : 2 * (num % den) = den := by omega
        exact_mod_cast this
      rw [abs_le]
      constructor <;> nlinarith
    · apply key
      have heq : (2 : ℚ) * ((num % den : ℕ) : ℚ) = (den : ℚ) := by
        have : 2 * (num % den) = den := by omega
        exact_mod_cast this
      push_cast
      rw [abs_le]
      constructor <;> nlinarith


theorem spanDigits_digits_then (ip : List Char) (c : Char) (rest : List Char)
    (hip : ∀ d ∈ ip, isDigit d = true) (hc : isDigit c = false) :
    spanDigits (ip ++ c :: rest) = (ip, c :: rest) := by
  induction ip with
  | nil => simp [spanDigits, hc]
  | cons d ip ih =>
    have hd : isDigit d = true := hip d (by simp)
    have ih2 := ih (fun e he => hip e (by simp [he]))
    simp [spanDigits, hd, ih2]

theorem natOfDigits_zeros (l : List Char) (h : ∀ c ∈ l, c = '0') : natOfDigits l = 0 := by
  induction l using List.reverseRecOn with
  | nil => rfl
  | append_singleton l c ih =>
    have hc : c = '0' := h c (by simp)
    rw [natOfDigits_append, ih (fun e he => h e (by simp [he])), hc]
    rfl

theorem padZeros_spec (width : Nat) (ds : List Char) (hlen : ds.length ≤ width)
    (hds : ∀ c ∈ ds, isDigit c = true) :
    (padZeros width ds).length = width ∧ (∀ c ∈ padZeros width ds, isDigit c = true) ∧
      natOfDigits (padZeros width ds) = natOfDigits ds := by
  unfold padZeros
  refine ⟨by simp; omega, ?_, ?_⟩
  · intro c hc
    rw [List.mem_append] at hc
    rcases hc with hc | hc
    · rw [(List.mem_replicate.mp hc).2]; rfl
    · exact hds c hc
  · rw [natOfDigits_append, natOfDigits_zeros _ (fun c hc => (List.mem_replicate.mp hc).2)]
    simp

/-- The numeral printed for the scaled integer `N`, with the trailing zeros
of its six decimals removed, denotes `N / 10^6`. -/
theorem unsignedDecimalValue_trimmed (N : Nat) :
    unsignedDecimalValue (decimalDigits (N / 10 ^ 6) ++
      '.' :: dropTrailing (fun c => "0".data.contains c) (padZeros 6 (decimalDigits (N % 10 ^ 6))))
      = some ((N : ℚ) / 10 ^ 6) := by
  obtain ⟨i1, i2, i3, _⟩ := decimalDigits_spec (N / 10 ^ 6)
  obtain ⟨f1, _, f3, f4⟩ := decimalDigits_spec (N % 10 ^ 6)
  have hflen : (decimalDigits (N % 10 ^ 6)).length ≤ 6 :=
    f4 6 (by decide) (Nat.mod_lt _ (by decide))
  obtain ⟨p1, p2, p3⟩ := padZeros_spec 6 _ hflen f1
  obtain ⟨dropped, hdec, hdrop⟩ :=
    dropTrailing_decomp (fun c => "0".data.contains c) (padZeros 6 (decimalDigits (N % 10 ^ 6)))
  generalize hfr : dropTrailing (fun c => "0".data.contains c)
    (padZeros 6 (decimalDigits (N % 10 ^ 6))) = fr at hdec
  have hzero : ∀ c ∈ dropped, c = '0' := by
    intro c hc
    have := hdrop c hc
    simpa using this
  have hfrd : ∀ c ∈ fr, isDigit c = true := by
    intro c hc
    exact p2 c (by rw [hdec]; simp [hc])
  have hval : natOfDigits fr * 10 ^ dropped.length = N % 10 ^ 6 := by
    have := natOfDigits_append fr dropped
    rw [← hdec, p3, f3, natOfDigits_zeros dropped hzero] at this
    omega
  have hlen : fr.length + dropped.length = 6 := by
    have := congrArg List.length hdec
    rw [p1, List.length_append] at this
    omega
  unfold unsignedDecimalValue
  rw [spanDigits_digits_then _ '.' fr i1 (by decide)]
  cases hip : decimalDigits (N / 10 ^ 6) with
  | nil => exact absurd hip i2
  | cons c ip =>
    simp only
    rw [if_pos (by simpa [List.all_eq_true] using hfrd)]
    rw [← hip, i3]
    congr 1
    have hN : (N : ℚ) = ((N / 10 ^ 6 : ℕ) : ℚ) * 10 ^ 6 + ((N % 10 ^ 6 : ℕ) : ℚ) := by
      exact_mod_cast (Nat.div_add_mod' N (10 ^ 6)).symm
    have hv : ((N % 10 ^ 6 : ℕ) : ℚ) = (natOfDigits fr : ℚ) * 10 ^ dropped.length := by
      exact_mod_cast hval.symm
    have h6 : (10 : ℚ) ^ 6 = 10 ^ fr.length * 10 ^ dropped.length := by
      rw [← pow_add, hlen]
    have hp1 : (0 : ℚ) < 10 ^ fr.length := by positivity
    have hp2 : (0 : ℚ) < 10 ^ dropped.length := by positivity
    rw [hN, hv, h6]
    field_simp
    ring


/-- The aperture value is `f/` followed by a numeral that is the `%f`
rendering without its trailing zeros. -/
theorem apertureValue_data (x : Float64) :
    (apertureValue x).data = 'f' :: '/' :: ((if x.neg then ['-'] else []) ++
      (decimalDigits (x.scaled6 / 10 ^ 6) ++ '.' ::
        dropTrailing (fun c => "0".data.contains c)
          (padZeros 6 (decimalDigits (x.scaled6 % 10 ^ 6))))) := by
  have h : (apertureValue x).data = dropTrailing (fun c => "0".data.contains c)
      (('f' :: '/' :: ((if x.neg then ['-'] else []) ++ decimalDigits (x.scaled6 / 10 ^ 6))) ++
        '.' :: padZeros 6 (decimalDigits (x.scaled6 % 10 ^ 6))) := by
    simp [apertureValue, trimRight, sprintfF]
  rw [h, dropTrailing_append_of_not _ _ _ _ (by decide)]
  simp

/-- C9: for a media item with a non-zero aperture f-number, the value of the
`aperture` EXIF entry is `f/` followed by a numeral which is the six-decimal
fixed-point rendering of the number with its trailing `0` characters
stripped: the value does not end in `0`, and the numeral denotes a multiple
of `10^-6` that lies within half of `10^-6` of the f-number, that is, the
f-number rounded to six decimals. -/
theorem aperture_value_is_trimmed_rounding (item : MediaItem)
    (h : item.MediaMetadata.Photo.ApertureFNumber.isNonZero = true) :
    ∃ numeral : List Char,
      Json.obj [("@type", .str "PropertyValue"), ("identifier", .str "aperture"),
        ("value", .str (String.mk ('f' :: '/' :: numeral)))] ∈ exifData item ∧
      (∃ zeros, sprintfF item.MediaMetadata.Photo.ApertureFNumber = numeral ++ zeros ∧
        ∀ c ∈ zeros, c = '0') ∧
      ('f' :: '/' :: numeral).getLast? ≠ some '0' ∧
      ∃ v : ℚ, decimalValue numeral = some v ∧ (∃ n : ℤ, v * 10 ^ 6 = n) ∧
        |v - item.MediaMetadata.Photo.ApertureFNumber.toRat| ≤ 1 / (2 * 10 ^ 6) := by
  generalize hx : item.MediaMetadata.Photo.ApertureFNumber = x at h
  have hdata := apertureValue_data x
  have hclose := scaled6_close x
  have hval := unsignedDecimalValue_trimmed x.scaled6
  generalize hnum : (decimalDigits (x.scaled6 / 10 ^ 6) ++ '.' ::
    dropTrailing (fun c => "0".data.contains c)
      (padZeros 6 (decimalDigits (x.scaled6 % 10 ^ 6)))) = unsigned at hdata hval
  refine ⟨(if x.neg then ['-'] else []) ++ unsigned, ?_, ?_, ?_, ?_⟩
  · have hstr : apertureValue x = String.mk ('f' :: '/' :: ((if x.neg then ['-'] else []) ++ unsigned)) := by
      rw [← hdata]
    rw [← hstr]
    unfold exifData propertyValue
    rw [hx]
    by_cases h1 : item.MediaMetadata.Photo.CameraMake = "" <;>
    by_cases h2 : item.MediaMetadata.Photo.CameraModel = "" <;>
    by_cases h4 : item.MediaMetadata.Photo.ExposureTime = "" <;>
    by_cases h5 : item.MediaMetadata.Photo.IsoEquivalent = 0 <;>
    simp [h1, h2, h, h4, h5]
  · obtain ⟨dropped, hdec, hdrop⟩ := dropTrailing_decomp (fun c => "0".data.contains c)
      (padZeros 6 (decimalDigits (x.scaled6 % 10 ^ 6)))
    refine ⟨dropped, ?_, fun c hc => by simpa using hdrop c hc⟩
    rw [← hnum]
    unfold sprintfF
    rw [List.append_assoc, List.append_assoc]
    congr 1
    rw [List.append_assoc]
    congr 1
    rw [List.cons_append, ← hdec]
  · intro hlast
    have h0 : (apertureValue x).data.getLast? = some '0' := by rw [hdata]; exact hlast
    have := dropTrailing_getLast (fun c => "0".data.contains c)
      ("f/" ++ String.mk (sprintfF x)).data '0' (by simpa [apertureValue, trimRight] using h0)
    exact absurd this (by decide)
  · have hfirst : ∀ l : List Char, unsignedDecimalValue l = some ((x.scaled6 : ℚ) / 10 ^ 6) →
        decimalValue l = some ((x.scaled6 : ℚ) / 10 ^ 6) := by
      intro l hl
      unfold decimalValue
      split
      · rename_i rest
        exfalso
        unfold unsignedDecimalValue at hl
        have hs : spanDigits ('-' :: rest) = ([], '-' :: rest) := by
          simp [spanDigits, isDigit]
        rw [hs] at hl
        simp at hl
      · exact hl
    have hq : |(x.scaled6 : ℚ) / 10 ^ 6 - (x.mant : ℚ) * (2 : ℚ) ^ x.exp| ≤ 1 / (2 * 10 ^ 6) := by
      have e : (x.scaled6 : ℚ) / 10 ^ 6 - (x.mant : ℚ) * (2 : ℚ) ^ x.exp
          = ((x.scaled6 : ℚ) - (x.mant : ℚ) * (2 : ℚ) ^ x.exp * 10 ^ 6) / 10 ^ 6 := by
        field_simp
        ring
      rw [e, abs_div, abs_of_pos (by positivity : (0 : ℚ) < 10 ^ 6),
        div_le_iff₀ (by positivity : (0 : ℚ) < 10 ^ 6)]
      calc |(x.scaled6 : ℚ) - (x.mant : ℚ) * (2 : ℚ) ^ x.exp * 10 ^ 6| ≤ 1 / 2 := hclose
        _ = 1 / (2 * 10 ^ 6) * 10 ^ 6 := by norm_num
    cases hneg : x.neg with
    | false =>
      refine ⟨(x.scaled6 : ℚ) / 10 ^ 6, ?_, ⟨(x.scaled6 : ℤ), by push_cast; field_simp⟩, ?_⟩
      · simpa using hfirst unsigned hval
      · simpa [Float64.toRat, hneg] using hq
    | true =>
      refine ⟨-((x.scaled6 : ℚ) / 10 ^ 6), ?_, ⟨-(x.scaled6 : ℤ), by push_cast; field_simp⟩, ?_⟩
      · simp [decimalValue, hval]
      · have : -((x.scaled6 : ℚ) / 10 ^ 6) - Float64.toRat x
            = -((x.scaled6 : ℚ) / 10 ^ 6 - (x.mant : ℚ) * (2 : ℚ) ^ x.exp) := by
          simp [Float64.toRat, hneg]; ring
        rw [this, abs_neg]
        exact hq

/-! ## The running minimum and maximum -/

theorem Time.before_iff (t u : Time) :
    t.Before u = true ↔
      (t.unixSec < u.unixSec ∨ (t.unixSec = u.unixSec ∧ t.nsec < u.nsec)) := by
  simp [Time.Before]

theorem Time.after_eq_before (t u : Time) : t.After u = u.Before t := by
  simp only [Time.After, Time.Before, gt_iff_lt]
  congr 2
  exact Bool.decide_congr eq_comm

theorem Time.not_before_iff (t u : Time) :
    t.Before u = false ↔
      (u.unixSec < t.unixSec ∨ (u.unixSec = t.unixSec ∧ u.nsec ≤ t.nsec)) := by
  rw [← Bool.not_eq_true, Time.before_iff]
  omega

/-- The running minimum after the times `ts`: it is the start value or one
of the times, it is not after the start value, and no time is before it. -/
theorem foldl_updateMin_spec (ts : List Time) :
    ∀ m : Time, (ts.foldl updateMin m = m ∨ ts.foldl updateMin m ∈ ts) ∧
      m.Before (ts.foldl updateMin m) = false ∧
      ∀ t ∈ ts, t.Before (ts.foldl updateMin m) = false := by
  induction ts with
  | nil =>
    intro m
    refine ⟨Or.inl rfl, ?_, by simp⟩
    rw [Time.not_before_iff]; simp
  | cons t ts ih =>
    intro m
    simp only [List.foldl_cons]
    obtain ⟨h1, h2, h3⟩ := ih (updateMin m t)
    have hm : m.Before (updateMin m t) = false ∧ t.Before (updateMin m t) = false := by
      unfold updateMin
      by_cases hb : t.Before m = true
      · rw [if_pos hb]
        rw [Time.before_iff] at hb
        constructor <;> rw [Time.not_before_iff] <;> omega
      · rw [if_neg hb]
        rw [Bool.not_eq_true] at hb
        refine ⟨?_, hb⟩
        rw [Time.not_before_iff]; omega
    refine ⟨?_, ?_, ?_⟩
    · rcases h1 with h1 | h1
      · rw [h1]
        unfold updateMin
        by_cases hb : t.Before m = true
        · rw [if_pos hb]; right; simp
        · rw [if_neg hb]; left; rfl
      · right; simp [h1]
    · have a := hm.1
      rw [Time.not_before_iff] at a h2 ⊢
      omega
    · intro u hu
      rcases List.mem_cons.mp hu with rfl | hu
      · have a := hm.2
        rw [Time.not_before_iff] at a h2 ⊢
        omega
      · exact h3 u hu

/-- The running maximum after the times `ts`. -/
theorem foldl_updateMax_spec (ts : List Time) :
    ∀ m : Time, (ts.foldl updateMax m = m ∨ ts.foldl updateMax m ∈ ts) ∧
      m.After (ts.foldl updateMax m) = false ∧
      ∀ t ∈ ts, t.After (ts.foldl updateMax m) = false := by
  induction ts with
  | nil =>
    intro m
    refine ⟨Or.inl rfl, ?_, by simp⟩
    rw [Time.after_eq_before, Time.not_before_iff]; simp
  | cons t ts ih =>
    intro m
    simp only [List.foldl_cons]
    obtain ⟨h1, h2, h3⟩ := ih (updateMax m t)
    have hm : m.After (updateMax m t) = false ∧ t.After (updateMax m t) = false := by
      unfold updateMax
      by_cases hb : t.After m = true
      · rw [if_pos hb]
        rw [Time.after_eq_before, Time.before_iff] at hb
        constructor <;> rw [Time.after_eq_before, Time.not_before_iff] <;> omega
      · rw [if_neg hb]
        rw [Bool.not_eq_true] at hb
        refine ⟨?_, hb⟩
        rw [Time.after_eq_before, Time.not_before_iff]; omega
    refine ⟨?_, ?_, ?_⟩
    · rcases h1 with h1 | h1
      · rw [h1]
        unfold updateMax
        by_cases hb : t.After m = true
        · rw [if_pos hb]; right; simp
        · rw [if_neg hb]; left; rfl
      · right; simp [h1]
    · have a := hm.1
      rw [Time.after_eq_before, Time.not_before_iff] at a h2 ⊢
      omega
    · intro u hu
      rcases List.mem_cons.mp hu with rfl | hu
      · have a := hm.2
        rw [Time.after_eq_before, Time.not_before_iff] at a h2 ⊢
        omega
      · exact h3 u hu

/-- When some time is before the start value, the running minimum is one of the times. -/
theorem foldl_updateMin_mem (ts : List Time) (m : Time)
    (h : ∃ t ∈ ts, t.Before m = true) : ts.foldl updateMin m ∈ ts := by
  obtain ⟨h1, _, h3⟩ := foldl_updateMin_spec ts m
  rcases h1 with h1 | h1
  · obtain ⟨t, ht, hb⟩ := h
    have := h3 t ht
    rw [h1, hb] at this
    exact absurd this (by decide)
  · exact h1

/-- When some time is after the start value, the running maximum is one of the times. -/
theorem foldl_updateMax_mem (ts : List Time) (m : Time)
    (h : ∃ t ∈ ts, t.After m = true) : ts.foldl updateMax m ∈ ts := by
  obtain ⟨h1, _, h3⟩ := foldl_updateMax_spec ts m
  rcases h1 with h1 | h1
  · obtain ⟨t, ht, hb⟩ := h
    have := h3 t ht
    rw [h1, hb] at this
    exact absurd this (by decide)
  · exact h1

/-! ## Runs of `exportAlbum` -/

/-- A run that returns `nil`: the items were processed in order and the
album document is the last event. -/
theorem exportAlbum_done {env : Env} {fuel : Nat} {album : Album} {opts : ExportOptions}
    {tr d : List Event}
    (hrun : exportAlbum env fuel album opts tr = (.done (), tr ++ d)) :
    ∃ st b pre,
      Processed env opts initialState (returnedItems d) (writesOf pre) st ∧
      env.marshalIndent (albumStructuredData album st) = .ok b ∧
      d = pre ++ [.writeFile (albumFile env opts album) (b ++ "\n") 0o755 none] := by
  obtain ⟨d1, e1, _, _, _, h⟩ := exportAlbum_spec env fuel album opts tr
  rw [hrun] at e1 h
  have hd : d = d1 := List.append_cancel_left e1
  rw [hd]
  exact h

/-- A run that returns an error: the files written are the documents of a
prefix of the delivered items. -/
theorem exportAlbum_failed {env : Env} {fuel : Nat} {album : Album} {opts : ExportOptions}
    {tr d : List Event} {err : String}
    (hrun : exportAlbum env fuel album opts tr = (.failed err, tr ++ d)) :
    ∃ finished, finished <+: returnedItems d ∧
      List.Forall₂ (IsItemWrite env opts) finished (writesOf d) := by
  obtain ⟨d1, e1, _, _, _, h⟩ := exportAlbum_spec env fuel album opts tr
  rw [hrun] at e1 h
  have hd : d = d1 := List.append_cancel_left e1
  rw [hd]
  exact h

theorem albumStructuredData_itemListElement (album : Album) (st : LoopState) :
    (albumStructuredData album st).get "itemListElement" = some (.arr st.itemListElement) := by
  simp only [albumStructuredData, Json.get]
  rw [lookupKey_setKey_ne _ _ _ _ (by decide)]
  exact lookupKey_setKey_self _ _ _

theorem albumStructuredData_temporalCoverage (album : Album) (st : LoopState) :
    (albumStructuredData album st).get "temporalCoverage"
      = some (.str (temporalCoverage st.dateCreatedMin st.dateCreatedMax)) := by
  simp only [albumStructuredData, Json.get]
  exact lookupKey_setKey_self _ _ _

theorem initialState_values :
    initialState.dateCreatedMin = { unixSec := 32503593600, nsec := 0, offset := 0 } ∧
    initialState.dateCreatedMax = { unixSec := -30641760000, nsec := 0, offset := 0 } ∧
    initialState.dateCreatedMin.Format .dateOnly = "2999-12-31" ∧
    initialState.dateCreatedMax.Format .dateOnly = "0999-01-01" := by
  decide

/-- C4: when `exportAlbum` returns `nil`, the album document it writes as
its last event has an `itemListElement` with exactly one entry per media item
the search delivered, in the order of delivery (page by page, and within a
page in the order of the page), the entry of an item being
`{"@id": GraphURI + "/" + itemGraphPath}`. -/
theorem itemListElement_one_ref_per_item_in_order (env : Env) (fuel : Nat) (album : Album)
    (opts : ExportOptions) (tr d : List Event)
    (hrun : exportAlbum env fuel album opts tr = (.done (), tr ++ d)) :
    ∃ (doc : Json) (b : String),
      env.marshalIndent doc = .ok b ∧
      d.getLast? = some (.writeFile (env.pathJoin opts.ContentDirectory (albumGraphPath album.Id))
        (b ++ "\n") 0o755 none) ∧
      doc.get "itemListElement" = some (.arr ((returnedItems d).map
        (fun item => Json.obj [("@id", .str (opts.GraphURI ++ "/" ++ itemGraphPath item.Id))]))) := by
  obtain ⟨st, b, pre, ⟨times, _, _, _, hil, _⟩, hm, hd⟩ := exportAlbum_done hrun
  refine ⟨albumStructuredData album st, b, hm, ?_, ?_⟩
  · rw [hd]; simp [albumFile]
  · rw [albumStructuredData_itemListElement, hil]
    simp [initialState, itemRef]

/-- C3: when `exportAlbum` returns an error, the files written during the
call are exactly the documents of the first items delivered (a prefix of the
delivered items, in order: nothing is written for any later item, and the
album document is not among them); when it returns `nil`, the album document
is the last event of the call, the files written before it are the documents
of all delivered items in order, and every entry of its `itemListElement` is
the reference of an item whose document was written before it. -/
theorem album_document_written_last_or_not_at_all (env : Env) (fuel : Nat) (album : Album)
    (opts : ExportOptions) (tr d : List Event) (out : Outcome Unit)
    (hrun : exportAlbum env fuel album opts tr = (out, tr ++ d)) :
    (∀ err, out = .failed err →
      ∃ finished, finished <+: returnedItems d ∧
        List.Forall₂ (IsItemWrite env opts) finished (writesOf d)) ∧
    (out = .done () →
      ∃ (doc : Json) (b : String) (pre : List Event) (refs : List Json),
        env.marshalIndent doc = .ok b ∧
        d = pre ++ [.writeFile (env.pathJoin opts.ContentDirectory (albumGraphPath album.Id))
          (b ++ "\n") 0o755 none] ∧
        List.Forall₂ (IsItemWrite env opts) (returnedItems d) (writesOf pre) ∧
        doc.get "itemListElement" = some (.arr refs) ∧
        ∀ ref ∈ refs, ∃ item w,
          ref = Json.obj [("@id", .str (opts.GraphURI ++ "/" ++ itemGraphPath item.Id))] ∧
          w ∈ writesOf pre ∧ IsItemWrite env opts item w) := by
  constructor
  · intro err hout
    rw [hout] at hrun
    exact exportAlbum_failed hrun
  · intro hout
    rw [hout] at hrun
    obtain ⟨st, b, pre, ⟨times, _, _, _, hil, hw⟩, hm, hd⟩ := exportAlbum_done hrun
    refine ⟨albumStructuredData album st, b, pre, st.itemListElement, hm, ?_, hw,
      albumStructuredData_itemListElement album st, ?_⟩
    · rw [hd]; rfl
    · intro ref href
      rw [hil] at href
      simp only [initialState, List.nil_append, List.mem_map] at href
      obtain ⟨item, hitem, rfl⟩ := href
      obtain ⟨i, hi, hget⟩ := List.getElem_of_mem hitem
      have hlen := hw.length_eq
      have hrel := (List.forall₂_iff_get.mp hw).2 i hi (by omega)
      refine ⟨item, (writesOf pre).get ⟨i, by omega⟩, rfl, List.get_mem _ _ _, ?_⟩
      rw [← hget]
      exact hrel

/-! ## Parsing and formatting agree on the date -/

theorem daysFromCivil_march (year : Int) (month day : Nat) :
    daysFromCivil year month day + 719468
      = daysBeforeMarchYear (if month ≤ 2 then year - 1 else year)
        + ((153 * (if month ≤ 2 then (month : Int) + 9 else (month : Int) - 3) + 2) / 5
            + (day : Int) - 1) := by
  unfold daysFromCivil daysBeforeMarchYear
  simp only
  split_ifs <;> omega

theorem daysBeforeMarchYear_year_length (y : Int) :
    daysBeforeMarchYear (y + 1) - daysBeforeMarchYear y
      = if isLeap (y + 1) = true then 366 else 365 := by
  unfold daysBeforeMarchYear isLeap
  split_ifs with h
  · simp only [Bool.and_eq_true, Bool.or_eq_true, decide_eq_true_eq] at h
    omega
  · simp only [Bool.and_eq_true, Bool.or_eq_true, decide_eq_true_eq, not_and, not_or] at h
    omega


/-- The day of the March-based year of a valid civil date lies within that year. -/
theorem marchDay_in_year (year : Int) (month day : Nat) (hm : 1 ≤ month ∧ month ≤ 12)
    (hd : 1 ≤ day ∧ day ≤ daysIn month year) :
    0 ≤ (153 * (if month ≤ 2 then (month : Int) + 9 else (month : Int) - 3) + 2) / 5
        + (day : Int) - 1 ∧
    daysBeforeMarchYear (if month ≤ 2 then year - 1 else year)
        + ((153 * (if month ≤ 2 then (month : Int) + 9 else (month : Int) - 3) + 2) / 5
          + (day : Int) - 1)
      < daysBeforeMarchYear ((if month ≤ 2 then year - 1 else year) + 1) := by
  have hlen := daysBeforeMarchYear_year_length (if month ≤ 2 then year - 1 else year)
  obtain ⟨hm1, hm2⟩ := hm
  obtain ⟨hd1, hd2⟩ := hd
  interval_cases month
  all_goals simp only [daysIn] at hd2
  all_goals norm_num at hd2 hlen ⊢
  all_goals (split_ifs at hd2 hlen <;> omega)

/-- Formatting inverts parsing on the calendar date: the civil date of the
day number of a valid civil date is that date. -/
theorem civilFromDays_daysFromCivil (year : Int) (month day : Nat)
    (hm : 1 ≤ month ∧ month ≤ 12) (hd : 1 ≤ day ∧ day ≤ daysIn month year) :
    civilFromDays (daysFromCivil year month day)
      = { year := year, month := (month : Int), day := (day : Int) } := by
  have hz := daysFromCivil_march year month day
  have hin := marchDay_in_year year month day hm hd
  have hsp := marchYearDay_spec (daysFromCivil year month day)
  have hd31 : day ≤ 31 := by
    have : daysIn month year ≤ 31 := by
      unfold daysIn; split_ifs <;> omega
    omega
  generalize hY0 : (if month ≤ 2 then year - 1 else year) = Y0 at hz hin
  generalize hmp : (if month ≤ 2 then (month : Int) + 9 else (month : Int) - 3) = mp at hz hin
  have hY : (marchYearDay (daysFromCivil year month day)).1 = Y0 := by
    by_contra hne
    rcases lt_or_gt_of_ne hne with hlt | hgt
    · have := daysBeforeMarchYear_mono
        ((marchYearDay (daysFromCivil year month day)).1 + 1) Y0 (by omega)
      omega
    · have := daysBeforeMarchYear_mono (Y0 + 1)
        (marchYearDay (daysFromCivil year month day)).1 (by omega)
      omega
  have hdoy : (marchYearDay (daysFromCivil year month day)).2 = (153 * mp + 2) / 5 + (day : Int) - 1 := by
    rw [hY] at hsp
    omega
  unfold civilFromDays
  simp only [hY, hdoy]
  obtain ⟨hm1, hm2⟩ := hm
  obtain ⟨hd1, hd2⟩ := hd
  have hmpv : mp = if month ≤ 2 then (month : Int) + 9 else (month : Int) - 3 := hmp.symm
  have hYv : Y0 = if month ≤ 2 then year - 1 else year := hY0.symm
  have hdm : day ≤ (if month = 2 then 29 else
      if month = 4 ∨ month = 6 ∨ month = 9 ∨ month = 11 then 30 else 31) := by
    unfold daysIn at hd2
    split_ifs at hd2 ⊢ <;> omega
  clear hz hin hsp hY hdoy hY0 hmp hd2
  interval_cases month <;> simp at hmpv hYv hdm <;> subst hmpv <;> subst hYv <;>
    simp only [CivilDate.mk.injEq] <;> norm_num <;> omega


theorem getYear_some {cs rest : List Char} {year : Nat} (h : getYear cs = some (year, rest)) :
    ∃ a b c d, cs = a :: b :: c :: d :: rest ∧
      (isDigit a = true ∧ isDigit b = true ∧ isDigit c = true ∧ isDigit d = true) ∧
      year = natOfDigits [a, b, c, d] := by
  unfold getYear at h
  split at h
  · rename_i a b c d r
    split at h
    · rename_i hd
      simp only [Option.some.injEq, Prod.mk.injEq] at h
      simp only [Bool.and_eq_true] at hd
      refine ⟨a, b, c, d, by rw [h.2], ⟨hd.1.1.1, hd.1.1.2, hd.1.2, hd.2⟩, ?_⟩
      rw [← h.1]
      simp [natOfDigits]
      ring
    · simp at h
  · simp at h

theorem getnum_fixed_some {cs rest : List Char} {v : Nat} (h : getnum cs true = some (v, rest)) :
    ∃ x y, cs = x :: y :: rest ∧ (isDigit x = true ∧ isDigit y = true) ∧
      v = natOfDigits [x, y] := by
  unfold getnum at h
  split at h
  · simp at h
  · simp at h
  · rename_i x y r
    by_cases hx : isDigit x = true
    · by_cases hy : isDigit y = true
      · simp [hx, hy] at h
        refine ⟨x, y, by rw [h.2], ⟨hx, hy⟩, ?_⟩
        rw [← h.1]
        simp [natOfDigits]
      · simp [hx, hy] at h
    · simp [hx] at h

theorem skipChar_some {c : Char} {cs rest : List Char} (h : skipChar c cs = some rest) :
    cs = c :: rest := by
  unfold skipChar at h
  split at h
  · rename_i x r
    split at h
    · rename_i hx
      simp only [Option.some.injEq] at h
      rw [hx, h]
    · simp at h
  · simp at h

/-- What a successful parse tells about its input: the input starts with
`YYYY-MM-DD`, a valid civil date, and the result is that date at a time of
day, shifted by the parsed offset. -/
theorem timeParse_ok {layout : Layout} {s : String} {t : Time} (h : timeParse layout s = .ok t) :
    ∃ (a b c d m1 m2 d1 d2 : Char) (rest : List Char) (clock nsec : Nat) (offset : Int),
      s.data = a :: b :: c :: d :: '-' :: m1 :: m2 :: '-' :: d1 :: d2 :: rest ∧
      (isDigit a = true ∧ isDigit b = true ∧ isDigit c = true ∧ isDigit d = true) ∧
      (isDigit m1 = true ∧ isDigit m2 = true) ∧ (isDigit d1 = true ∧ isDigit d2 = true) ∧
      (1 ≤ natOfDigits [m1, m2] ∧ natOfDigits [m1, m2] ≤ 12) ∧
      (1 ≤ natOfDigits [d1, d2] ∧
        natOfDigits [d1, d2] ≤ daysIn (natOfDigits [m1, m2]) (natOfDigits [a, b, c, d])) ∧
      clock < 86400 ∧
      t = { unixSec := daysFromCivil (natOfDigits [a, b, c, d]) (natOfDigits [m1, m2])
              (natOfDigits [d1, d2]) * 86400 + (clock : Int) - offset
            nsec := nsec
            offset := offset } := by
  unfold timeParse at h
  simp only at h
  cases hy : getYear s.data with
  | none => simp [hy] at h
  | some p1 =>
    obtain ⟨year, s1⟩ := p1
    simp only [hy] at h
    cases h2 : skipChar '-' s1 with
    | none => simp [h2] at h
    | some s2 =>
      simp only [h2] at h
      cases h3 : getnum s2 true with
      | none => simp [h3] at h
      | some p3 =>
        obtain ⟨month, s3⟩ := p3
        simp only [h3] at h
        by_cases hmr : month = 0 ∨ 12 < month
        · simp [hmr] at h
        · rw [if_neg hmr] at h
          cases h4 : skipChar '-' s3 with
          | none => simp [h4] at h
          | some s4 =>
            simp only [h4] at h
            cases h5 : getnum s4 true with
            | none => simp [h5] at h
            | some p5 =>
              obtain ⟨day, s5⟩ := p5
              simp only [h5] at h
              obtain ⟨a, b, c, d, e1, hd1, ey⟩ := getYear_some hy
              have e2 := skipChar_some h2
              obtain ⟨m1, m2, e3, hd3, em⟩ := getnum_fixed_some h3
              have e4 := skipChar_some h4
              obtain ⟨d1, d2, e5, hd5, ed⟩ := getnum_fixed_some h5
              have hdata : s.data = a :: b :: c :: d :: '-' :: m1 :: m2 :: '-' :: d1 :: d2 :: s5 := by
                rw [e1, e2, e3, e4, e5]
              subst ey em ed
              have hmonth : 1 ≤ natOfDigits [m1, m2] ∧ natOfDigits [m1, m2] ≤ 12 := by omega
              cases layout with
              | dateOnly =>
                simp only at h
                by_cases hs5 : s5 ≠ []
                · simp [hs5] at h
                · rw [if_neg hs5] at h
                  by_cases hdr : natOfDigits [d1, d2] < 1 ∨
                      daysIn (natOfDigits [m1, m2]) (natOfDigits [a, b, c, d]) < natOfDigits [d1, d2]
                  · rw [if_pos hdr] at h
                    exact absurd h (by simp)
                  · rw [if_neg hdr] at h
                    simp only [Except.ok.injEq] at h
                    refine ⟨a, b, c, d, m1, m2, d1, d2, s5, 0, 0, 0, hdata, hd1, hd3, hd5, hmonth,
                      by omega, by decide, ?_⟩
                    rw [← h]
                    simp [mkTime]
              | rfc3339 =>
                simp only at h
                cases h6 : skipChar 'T' s5 with
                | none => simp [h6] at h
                | some s6 =>
                  simp only [h6] at h
                  cases h7 : getnum s6 false with
                  | none => simp [h7] at h
                  | some p7 =>
                    obtain ⟨hour, s7⟩ := p7
                    simp only [h7] at h
                    by_cases hhr : 24 ≤ hour
                    · simp [hhr] at h
                    · rw [if_neg hhr] at h
                      cases h8 : skipChar ':' s7 with
                      | none => simp [h8] at h
                      | some s8 =>
                        simp only [h8] at h
                        cases h9 : getnum s8 true with
                        | none => simp [h9] at h
                        | some p9 =>
                          obtain ⟨min, s9⟩ := p9
                          simp only [h9] at h
                          by_cases hmi : 60 ≤ min
                          · simp [hmi] at h
                          · rw [if_neg hmi] at h
                            cases h10 : skipChar ':' s9 with
                            | none => simp [h10] at h
                            | some s10 =>
                              simp only [h10] at h
                              cases h11 : getnum s10 true with
                              | none => simp [h11] at h
                              | some p11 =>
                                obtain ⟨sec, s11⟩ := p11
                                simp only [h11] at h
                                by_cases hse : 60 ≤ sec
                                · simp [hse] at h
                                · rw [if_neg hse] at h
                                  cases h12 : getZone (getFraction s11).2 with
                                  | none => simp [h12] at h
                                  | some p12 =>
                                    obtain ⟨offset, s12⟩ := p12
                                    simp only [h12] at h
                                    by_cases hs12 : s12 ≠ []
                                    · simp [hs12] at h
                                    · rw [if_neg hs12] at h
                                      by_cases hdr : natOfDigits [d1, d2] < 1 ∨
                                          daysIn (natOfDigits [m1, m2]) (natOfDigits [a, b, c, d])
                                            < natOfDigits [d1, d2]
                                      · rw [if_pos hdr] at h
                                        exact absurd h (by simp)
                                      · rw [if_neg hdr] at h
                                        simp only [Except.ok.injEq] at h
                                        refine ⟨a, b, c, d, m1, m2, d1, d2, s5,
                                          hour * 3600 + min * 60 + sec, (getFraction s11).1, offset,
                                          hdata, hd1, hd3, hd5, hmonth, by omega, by omega, ?_⟩
                                        rw [← h]
                                        rfl


theorem digitVal_of_isDigit (c : Char) (h : isDigit c = true) :
    digitVal c < 10 ∧ digitChar (digitVal c) = c := by
  simp only [isDigit, Bool.and_eq_true, decide_eq_true_eq] at h
  unfold digitVal digitChar
  refine ⟨by omega, ?_⟩
  have : 48 + (c.toNat - 48) % 10 = c.toNat := by omega
  rw [this, Char.ofNat_toNat]

theorem natOfDigits_concat (l : List Char) (c : Char) :
    natOfDigits (l ++ [c]) = natOfDigits l * 10 + digitVal c := by
  rw [natOfDigits_append]
  simp [natOfDigits]

/-- Two digit strings of the same length that denote the same number are equal. -/
theorem digits_unique (l1 : List Char) :
    ∀ l2 : List Char, l1.length = l2.length →
      (∀ c ∈ l1, isDigit c = true) → (∀ c ∈ l2, isDigit c = true) →
      natOfDigits l1 = natOfDigits l2 → l1 = l2 := by
  induction l1 using List.reverseRecOn with
  | nil =>
    intro l2 hlen _ _ _
    exact (List.length_eq_zero.mp hlen.symm).symm
  | append_singleton l1 c1 ih =>
    intro l2 hlen h1 h2 hv
    rcases List.eq_nil_or_concat l2 with rfl | ⟨l2, c2, rfl⟩
    · simp at hlen
    · rw [List.concat_eq_append] at hlen h2 hv ⊢
      rw [natOfDigits_concat, natOfDigits_concat] at hv
      have hc1 := digitVal_of_isDigit c1 (h1 c1 (by simp))
      have hc2 := digitVal_of_isDigit c2 (h2 c2 (by simp))
      have hdv : digitVal c1 = digitVal c2 := by omega
      have hnv : natOfDigits l1 = natOfDigits l2 := by omega
      have hl : l1 = l2 := ih l2 (by simpa using hlen) (fun c hc => h1 c (by simp [hc]))
        (fun c hc => h2 c (by simp [hc])) hnv
      have hc : c1 = c2 := by rw [← hc1.2, ← hc2.2, hdv]
      rw [hl, hc]

/-- Rendering the number a digit string denotes, padded to the length of the
string, gives the string back. -/
theorem appendInt_natOfDigits (l : List Char) (hl : 0 < l.length)
    (hd : ∀ c ∈ l, isDigit c = true) :
    appendInt ((natOfDigits l : Nat) : Int) l.length = l := by
  have hlt : natOfDigits l < 10 ^ l.length := by
    clear hl
    induction l using List.reverseRecOn with
    | nil => simp [natOfDigits]
    | append_singleton l c ih =>
      rw [natOfDigits_concat]
      have := ih (fun x hx => hd x (by simp [hx]))
      have hc := (digitVal_of_isDigit c (hd c (by simp))).1
      simp only [List.length_append, List.length_singleton, pow_succ]
      omega
  obtain ⟨s1, _, s3, s4⟩ := decimalDigits_spec (natOfDigits l)
  obtain ⟨p1, p2, p3⟩ := padZeros_spec l.length _ (s4 l.length hl hlt) s1
  unfold appendInt
  rw [if_neg (by omega)]
  simp only [Int.natAbs_ofNat]
  exact digits_unique _ l p1 p2 hd (by rw [p3, s3])

/-- The date a parsed time is formatted with is the date its input starts
with: `Format("2006-01-02")` of the result of `time.Parse` gives the first
ten characters of the parsed string. -/
theorem format_date_of_parse {layout : Layout} {s : String} {t : Time}
    (h : timeParse layout s = .ok t) :
    t.Format .dateOnly = String.mk (s.data.take 10) := by
  obtain ⟨a, b, c, d, m1, m2, d1, d2, rest, clock, nsec, offset, hdata, hy, hm, hd, hmr, hdr,
    hclock, ht⟩ := timeParse_ok h
  have hday : t.localDay = daysFromCivil (natOfDigits [a, b, c, d]) (natOfDigits [m1, m2])
      (natOfDigits [d1, d2]) := by
    rw [ht]
    simp only [Time.localDay, Time.localSec]
    omega
  have hdate := civilFromDays_daysFromCivil (natOfDigits [a, b, c, d]) (natOfDigits [m1, m2])
    (natOfDigits [d1, d2]) hmr hdr
  have ry := appendInt_natOfDigits [a, b, c, d] (by simp)
    (by intro x hx; simp at hx; rcases hx with rfl | rfl | rfl | rfl <;> simp [hy])
  have rm := appendInt_natOfDigits [m1, m2] (by simp)
    (by intro x hx; simp at hx; rcases hx with rfl | rfl <;> simp [hm])
  have rd := appendInt_natOfDigits [d1, d2] (by simp)
    (by intro x hx; simp at hx; rcases hx with rfl | rfl <;> simp [hd])
  simp only [List.length_cons, List.length_nil] at ry rm rd
  simp only [Time.Format, Time.date, hday, hdate, CivilDate.render]
  rw [hdata]
  norm_num at ry rm rd ⊢
  rw [ry, rm, rd]
  simp

/-! ## Temporal coverage -/

theorem map_some_injective {α : Type} {a b : List α} (h : a.map some = b.map some) : a = b :=
  List.map_injective_iff.mpr (Option.some_injective α) h

/-- The album document of a successful run, with the running minimum and
maximum expressed over the parsed creation times of the delivered items. -/
theorem exportAlbum_done_coverage {env : Env} {fuel : Nat} {album : Album}
    {opts : ExportOptions} {tr d : List Event}
    (hrun : exportAlbum env fuel album opts tr = (.done (), tr ++ d))
    (times : List Time) (htimes : (returnedItems d).map parsedCreationTime = times.map some) :
    ∃ (doc : Json) (b : String),
      env.marshalIndent doc = .ok b ∧
      d.getLast? = some (.writeFile (env.pathJoin opts.ContentDirectory (albumGraphPath album.Id))
        (b ++ "\n") 0o755 none) ∧
      doc.get "temporalCoverage" = some (.str (temporalCoverage
        (times.foldl updateMin initialState.dateCreatedMin)
        (times.foldl updateMax initialState.dateCreatedMax))) := by
  obtain ⟨st, b, pre, ⟨times0, ht0, hmn, hmx, _, _⟩, hm, hd⟩ := exportAlbum_done hrun
  have heq : times0 = times := map_some_injective (ht0.symm.trans htimes)
  refine ⟨albumStructuredData album st, b, hm, ?_, ?_⟩
  · rw [hd]; simp [albumFile]
  · rw [albumStructuredData_temporalCoverage, hmn, hmx, heq]

theorem temporalCoverage_eq (mn mx : Time) :
    temporalCoverage mn mx =
      if mn.Format .dateOnly = mx.Format .dateOnly then mn.Format .dateOnly
      else mn.Format .dateOnly ++ "/" ++ mx.Format .dateOnly := by
  unfold temporalCoverage
  by_cases h : mn.Format .dateOnly = mx.Format .dateOnly
  · simp [h]
  · simp [h]

theorem mem_of_map_parsed {items : List MediaItem} {times : List Time} {t : Time}
    (htimes : items.map parsedCreationTime = times.map some) (ht : t ∈ times) :
    ∃ item ∈ items, parsedCreationTime item = some t ∧ t.Format .dateOnly = creationDate item := by
  have hmem : some t ∈ items.map parsedCreationTime := by
    rw [htimes]; exact List.mem_map.mpr ⟨t, ht, rfl⟩
  obtain ⟨item, hitem, hp⟩ := List.mem_map.mp hmem
  refine ⟨item, hitem, hp, ?_⟩
  unfold parsedCreationTime at hp
  cases hq : timeParse .rfc3339 item.MediaMetadata.CreationTime with
  | error err => rw [hq] at hp; simp at hp
  | ok u =>
    rw [hq] at hp
    simp only [Option.some.injEq] at hp
    rw [← hp]
    exact format_date_of_parse hq

/-- C1 (amended): when `exportAlbum` returns `nil` after the search delivered
items whose creation times all parse, at least one of them before the start
value 2999-12-31T00:00:00Z of the running minimum and at least one after the
start value 0999-01-01T00:00:00Z of the running maximum, the running minimum
is the creation time of a delivered item that no delivered item precedes,
the running maximum is the creation time of a delivered item that no
delivered item follows, and `temporalCoverage` in the album document is made
of the calendar dates of these two items, as written in their creation
times. -/
theorem temporalCoverage_spans_earliest_to_latest (env : Env) (fuel : Nat) (album : Album)
    (opts : ExportOptions) (tr d : List Event)
    (hrun : exportAlbum env fuel album opts tr = (.done (), tr ++ d))
    (times : List Time) (htimes : (returnedItems d).map parsedCreationTime = times.map some)
    (hmin : ∃ t ∈ times, t.Before initialState.dateCreatedMin = true)
    (hmax : ∃ t ∈ times, t.After initialState.dateCreatedMax = true) :
    ∃ (earliest latest : MediaItem) (mn mx : Time) (doc : Json) (b : String),
      mn = times.foldl updateMin initialState.dateCreatedMin ∧
      mx = times.foldl updateMax initialState.dateCreatedMax ∧
      earliest ∈ returnedItems d ∧ parsedCreationTime earliest = some mn ∧
      (∀ t ∈ times, t.Before mn = false) ∧
      latest ∈ returnedItems d ∧ parsedCreationTime latest = some mx ∧
      (∀ t ∈ times, t.After mx = false) ∧
      env.marshalIndent doc = .ok b ∧
      d.getLast? = some (.writeFile (env.pathJoin opts.ContentDirectory (albumGraphPath album.Id))
        (b ++ "\n") 0o755 none) ∧
      doc.get "temporalCoverage" = some (.str
        (if creationDate earliest = creationDate latest then creationDate earliest
         else creationDate earliest ++ "/" ++ creationDate latest)) := by
  obtain ⟨doc, b, hm, hlast, hcov⟩ := exportAlbum_done_coverage hrun times htimes
  obtain ⟨earliest, he1, he2, he3⟩ :=
    mem_of_map_parsed htimes (foldl_updateMin_mem times _ hmin)
  obtain ⟨latest, hl1, hl2, hl3⟩ :=
    mem_of_map_parsed htimes (foldl_updateMax_mem times _ hmax)
  refine ⟨earliest, latest, _, _, doc, b, rfl, rfl, he1, he2,
    (foldl_updateMin_spec times _).2.2, hl1, hl2, (foldl_updateMax_spec times _).2.2,
    hm, hlast, ?_⟩
  rw [hcov, temporalCoverage_eq, he3, hl3]

theorem string_ne_append_slash (a b : String) : a ++ "/" ++ b ≠ a := by
  intro h
  have := congrArg String.length h
  simp only [String.length_append] at this
  have h1 : "/".length = 1 := rfl
  omega

/-- C2 (amended): when `exportAlbum` returns `nil`, `temporalCoverage` in the
album document is the single date `YYYY-MM-DD` if and only if the calendar
dates of the running minimum and of the running maximum are the same string
(in particular whenever the two are the same timestamp), and otherwise it is
`<min date>/<max date>`; when a single item was delivered, created strictly
between 0999-01-01T00:00:00Z and 2999-12-31T00:00:00Z, it is the date written
in the creation time of that item. -/
theorem temporalCoverage_single_iff_same_date (env : Env) (fuel : Nat) (album : Album)
    (opts : ExportOptions) (tr d : List Event)
    (hrun : exportAlbum env fuel album opts tr = (.done (), tr ++ d))
    (times : List Time) (htimes : (returnedItems d).map parsedCreationTime = times.map some) :
    ∃ (mn mx : Time) (doc : Json) (b coverage : String),
      mn = times.foldl updateMin initialState.dateCreatedMin ∧
      mx = times.foldl updateMax initialState.dateCreatedMax ∧
      env.marshalIndent doc = .ok b ∧
      d.getLast? = some (.writeFile (env.pathJoin opts.ContentDirectory (albumGraphPath album.Id))
        (b ++ "\n") 0o755 none) ∧
      doc.get "temporalCoverage" = some (.str coverage) ∧
      (coverage = mn.Format .dateOnly ↔ mn.Format .dateOnly = mx.Format .dateOnly) ∧
      (mn.Format .dateOnly ≠ mx.Format .dateOnly →
        coverage = mn.Format .dateOnly ++ "/" ++ mx.Format .dateOnly) ∧
      (mn = mx → coverage = mn.Format .dateOnly) ∧
      (∀ item t, returnedItems d = [item] → parsedCreationTime item = some t →
        t.Before initialState.dateCreatedMin = true → t.After initialState.dateCreatedMax = true →
        coverage = creationDate item) := by
  obtain ⟨doc, b, hm, hlast, hcov⟩ := exportAlbum_done_coverage hrun times htimes
  refine ⟨_, _, doc, b, _, rfl, rfl, hm, hlast, hcov, ?_, ?_, ?_, ?_⟩
  · rw [temporalCoverage_eq]
    constructor
    · intro h
      by_contra hne
      rw [if_neg hne] at h
      exact string_ne_append_slash _ _ h
    · intro h
      rw [if_pos h]
  · intro hne
    rw [temporalCoverage_eq, if_neg hne]
  · intro heq
    rw [temporalCoverage_eq, if_pos (by rw [heq])]
  · intro item t hitems hp hb ha
    have ht : times = [t] := by
      apply map_some_injective
      rw [← htimes, hitems]
      simp [hp]
    obtain ⟨item2, hmem, _, hdate⟩ := mem_of_map_parsed htimes (t := t) (by rw [ht]; simp)
    have hi : item2 = item := by rw [hitems] at hmem; simpa using hmem
    rw [ht, temporalCoverage_eq]
    simp only [List.foldl_cons, List.foldl_nil, updateMin, updateMax, hb, ha, if_true]
    rw [hdate, hi]

/-- C10 (amended): when `exportAlbum` returns `nil` after the search delivered
at least one item, the creation times of the delivered items all carry the
same UTC offset and all lie strictly between 0999-01-01T00:00:00Z and
2999-12-31T00:00:00Z, then `temporalCoverage` is rendered from two calendar
dates `a` and `z`, and whenever it has the range form `a/z` the date `a` is
strictly earlier than the date `z`. -/
theorem range_start_date_precedes_end_date (env : Env) (fuel : Nat) (album : Album)
    (opts : ExportOptions) (tr d : List Event)
    (hrun : exportAlbum env fuel album opts tr = (.done (), tr ++ d))
    (times : List Time) (htimes : (returnedItems d).map parsedCreationTime = times.map some)
    (hne : times ≠ []) (offset : Int) (hoff : ∀ t ∈ times, t.offset = offset)
    (hwin : ∀ t ∈ times, t.After initialState.dateCreatedMax = true ∧
      t.Before initialState.dateCreatedMin = true) :
    ∃ (doc : Json) (b : String) (a z : CivilDate),
      env.marshalIndent doc = .ok b ∧
      d.getLast? = some (.writeFile (env.pathJoin opts.ContentDirectory (albumGraphPath album.Id))
        (b ++ "\n") 0o755 none) ∧
      doc.get "temporalCoverage" = some (.str
        (if a.render = z.render then a.render else a.render ++ "/" ++ z.render)) ∧
      (a.render ≠ z.render → a.earlier z) := by
  obtain ⟨doc, b, hm, hlast, hcov⟩ := exportAlbum_done_coverage hrun times htimes
  obtain ⟨t0, ht0⟩ := List.exists_mem_of_ne_nil times hne
  have hmn := foldl_updateMin_mem times _ ⟨t0, ht0, (hwin t0 ht0).2⟩
  have hmx := foldl_updateMax_mem times _ ⟨t0, ht0, (hwin t0 ht0).1⟩
  have hle := (foldl_updateMin_spec times initialState.dateCreatedMin).2.2 _ hmx
  generalize times.foldl updateMin initialState.dateCreatedMin = mn at hcov hmn hle
  generalize times.foldl updateMax initialState.dateCreatedMax = mx at hcov hmx hle
  refine ⟨doc, b, mn.date, mx.date, hm, hlast, ?_, ?_⟩
  · rw [hcov, temporalCoverage_eq]; rfl
  · intro hdiff
    have hdays : mn.localDay ≠ mx.localDay := by
      intro h
      apply hdiff
      unfold Time.date
      rw [h]
    have hsec : mn.localSec ≤ mx.localSec := by
      rw [Time.not_before_iff] at hle
      unfold Time.localSec
      rw [hoff mn hmn, hoff mx hmx]
      omega
    have hday : mn.localDay ≤ mx.localDay := by
      unfold Time.localDay
      exact Int.ediv_le_ediv (by decide) hsec
    exact civilFromDays_strictMono _ _ (lt_of_le_of_ne hday hdays)

/-! ## `main` -/

theorem fileEvents_nil_of_skips (albums : List Album) :
    fileEvents (albums.map (fun a => Event.printf "SKIP: %s %s\n" [a.Id, a.Title])) = [] := by
  induction albums with
  | nil => rfl
  | cons a rest ih => simpa [fileEvents] using ih

/-- When no listed album has the requested title, the album loop only prints
one `SKIP` line per album. -/
theorem albumLoop_no_match (env : Env) (fuel : Nat) (args : List String) (title : String)
    (hargs : args.get? 1 = some title) (albums : List Album) :
    ∀ tr : List Event, (∀ a ∈ albums, a.Title ≠ title) →
      albumLoop env fuel args tr albums
        = (.returned, tr ++ albums.map (fun a => Event.printf "SKIP: %s %s\n" [a.Id, a.Title])) := by
  induction albums with
  | nil => intro tr _; simp [albumLoop]
  | cons a rest ih =>
    intro tr h
    have ha : a.Title ≠ title := h a (by simp)
    unfold albumLoop
    rw [hargs]
    simp only [ha, ne_eq, not_false_eq_true, if_true]
    rw [ih _ (fun b hb => h b (by simp [hb]))]
    simp

/-- What the loop over the listed albums does. -/
theorem albumLoop_spec (env : Env) (fuel : Nat) (args : List String)
    (title contentDirectory graphURI : String)
    (h1 : args.get? 1 = some title) (h2 : args.get? 2 = some contentDirectory)
    (h3 : args.get? 3 = some graphURI) (albums : List Album) :
    ∀ tr : List Event,
    ∃ d, (albumLoop env fuel args tr albums).2 = tr ++ d ∧ noAlbumsMessages d = 0 ∧
      exportedAlbums d <+: albums.filter (fun a => decide (a.Title = title)) ∧
      skippedAlbums d <+: albums.filter (fun a => decide (a.Title ≠ title)) ∧
      ((albumLoop env fuel args tr albums).1 = .returned →
        exportedAlbums d = albums.filter (fun a => decide (a.Title = title)) ∧
        skippedAlbums d = albums.filter (fun a => decide (a.Title ≠ title))) ∧
      ((albumLoop env fuel args tr albums).1 ≠ .returned → exportedAlbums d ≠ []) := by
  induction albums with
  | nil =>
    intro tr
    exact ⟨[], by simp [albumLoop], rfl, by simp [exportedAlbums], by simp [skippedAlbums],
      fun _ => ⟨rfl, rfl⟩, fun h => absurd (by simp [albumLoop]) h⟩
  | cons a rest ih =>
    intro tr
    unfold albumLoop
    rw [h1, h2, h3]
    by_cases ha : a.Title = title
    · simp only [ha, ne_eq, not_true_eq_false, if_false]
      obtain ⟨d1, e1, x1, x2, x3, hx⟩ := exportAlbum_spec env fuel a
        { ContentDirectory := contentDirectory, GraphURI := graphURI, StaticDirectory := "" } tr
      have hf : (a :: rest).filter (fun a => decide (a.Title = title))
          = a :: rest.filter (fun a => decide (a.Title = title)) := by simp [ha]
      have hs : (a :: rest).filter (fun a => decide (a.Title ≠ title))
          = rest.filter (fun a => decide (a.Title ≠ title)) := by simp [ha]
      rw [hf, hs]
      cases hr : exportAlbum env fuel a
          { ContentDirectory := contentDirectory, GraphURI := graphURI, StaticDirectory := "" } tr with
      | mk out tr1 =>
        rw [hr] at e1
        simp only at e1
        cases out with
        | failed err =>
          refine ⟨d1, e1, x3, ?_, ?_, fun h => absurd h (by simp), fun _ => by simp [x1]⟩
          · rw [x1]; simp
          · rw [x2]; exact List.nil_prefix
        | unfinished =>
          refine ⟨d1, e1, x3, ?_, ?_, fun h => absurd h (by simp), fun _ => by simp [x1]⟩
          · rw [x1]; simp
          · rw [x2]; exact List.nil_prefix
        | done u =>
          simp only
          obtain ⟨d2, e2, y3, p1, p2, hret, hnot⟩ := ih tr1
          refine ⟨d1 ++ d2, by rw [e2, e1, List.append_assoc], ?_, ?_, ?_, ?_, ?_⟩
          · rw [noAlbumsMessages_append, x3, y3]
          · rw [exportedAlbums_append, x1]
            exact (List.prefix_cons_inj a).mpr p1
          · rw [skippedAlbums_append, x2]; exact p2
          · intro h
            obtain ⟨r1, r2⟩ := hret h
            rw [exportedAlbums_append, skippedAlbums_append, x1, x2, r1, r2]
            exact ⟨rfl, rfl⟩
          · intro _
            rw [exportedAlbums_append, x1]; simp
    · simp only [ha, ne_eq, not_false_eq_true, if_true]
      have hf : (a :: rest).filter (fun a => decide (a.Title = title))
          = rest.filter (fun a => decide (a.Title = title)) := by simp [ha]
      have hs : (a :: rest).filter (fun a => decide (a.Title ≠ title))
          = a :: rest.filter (fun a => decide (a.Title ≠ title)) := by simp [ha]
      rw [hf, hs]
      obtain ⟨d2, e2, y3, p1, p2, hret, hnot⟩ :=
        ih (tr ++ [.printf "SKIP: %s %s\n" [a.Id, a.Title]])
      have hsk : skippedAlbums ([Event.printf "SKIP: %s %s\n" [a.Id, a.Title]] ++ d2)
          = a :: skippedAlbums d2 := by
        rw [skippedAlbums_append]; rfl
      have hex : exportedAlbums ([Event.printf "SKIP: %s %s\n" [a.Id, a.Title]] ++ d2)
          = exportedAlbums d2 := by
        rw [exportedAlbums_append]; rfl
      refine ⟨[.printf "SKIP: %s %s\n" [a.Id, a.Title]] ++ d2, by rw [e2, List.append_assoc],
        ?_, ?_, ?_, ?_, ?_⟩
      · rw [noAlbumsMessages_append, y3]; rfl
      · rw [hex]; exact p1
      · rw [hsk]; exact (List.prefix_cons_inj a).mpr p2
      · intro h
        obtain ⟨r1, r2⟩ := hret h
        rw [hex, hsk, r1, r2]
        exact ⟨rfl, rfl⟩
      · intro h
        rw [hex]; exact hnot h

theorem exportedAlbums_skipEvents (skipped : List Album) :
    exportedAlbums (skipEvents skipped) = [] := by
  induction skipped with
  | nil => rfl
  | cons a rest ih =>
    have h : exportedAlbums (skipEvents (a :: rest))
        = exportedAlbums ([Event.printf "SKIP: %s %s\n" [a.Id, a.Title]] ++ skipEvents rest) := rfl
    rw [h, exportedAlbums_append, ih]
    rfl

/-- The export start lines of a run are those of its calls, in order. -/
theorem madeCalls_exportedAlbums (env : Env) (fuel : Nat) (opts : ExportOptions)
    (calls : List ExportCall) :
    ∀ (start trace : List Event), MadeCalls env fuel opts start calls trace →
      ∃ d, trace = start ++ d ∧ exportedAlbums d = calls.map (fun c => c.album) := by
  induction calls with
  | nil =>
    intro start trace h
    obtain ⟨skipped, hs⟩ := h
    exact ⟨skipEvents skipped, hs, exportedAlbums_skipEvents skipped⟩
  | cons c cs ih =>
    intro start trace h
    obtain ⟨skipped, hb, _, hrest⟩ := h
    obtain ⟨d1, e1, x1, _, _, _⟩ := exportAlbum_spec env fuel c.album opts c.before
    obtain ⟨d2, e2, x2⟩ := ih _ trace hrest
    refine ⟨skipEvents skipped ++ d1 ++ d2, ?_, ?_⟩
    · rw [e2, e1, hb]; simp only [List.append_assoc]
    · rw [exportedAlbums_append, exportedAlbums_append, exportedAlbums_skipEvents, x1, x2]
      rfl

theorem madeCalls_after_skip (env : Env) (fuel : Nat) (opts : ExportOptions) (a : Album)
    (start : List Event) (calls : List ExportCall) (trace : List Event)
    (h : MadeCalls env fuel opts (start ++ [.printf "SKIP: %s %s\n" [a.Id, a.Title]]) calls trace) :
    MadeCalls env fuel opts start calls trace := by
  cases calls with
  | nil =>
    obtain ⟨skipped, hs⟩ := h
    exact ⟨a :: skipped, by rw [hs, List.append_assoc]; rfl⟩
  | cons c cs =>
    obtain ⟨skipped, hb, ho, hrest⟩ := h
    exact ⟨a :: skipped, by rw [hb, List.append_assoc]; rfl, ho, hrest⟩

/-- The calls of `exportAlbum` the loop over the listed albums makes. -/
theorem albumLoop_calls (env : Env) (fuel : Nat) (args : List String)
    (title contentDirectory graphURI : String)
    (h1 : args.get? 1 = some title) (h2 : args.get? 2 = some contentDirectory)
    (h3 : args.get? 3 = some graphURI) (albums : List Album) :
    ∀ tr : List Event,
    ∃ calls : List ExportCall,
      MadeCalls env fuel
        { ContentDirectory := contentDirectory, GraphURI := graphURI, StaticDirectory := "" }
        tr calls (albumLoop env fuel args tr albums).2 ∧
      calls.map (fun c => c.album) <+: albums.filter (fun a => decide (a.Title = title)) ∧
      (∀ c ∈ calls.dropLast, c.outcome = .done ()) ∧
      (albumLoop env fuel args tr albums).1 = exitAfter calls.getLast? ∧
      ((albumLoop env fuel args tr albums).1 = .returned →
        calls.map (fun c => c.album) = albums.filter (fun a => decide (a.Title = title))) ∧
      ((albumLoop env fuel args tr albums).1 ≠ .returned →
        ∃ c, calls.getLast? = some c ∧
          (albumLoop env fuel args tr albums).2
            = (exportAlbum env fuel c.album
                { ContentDirectory := contentDirectory, GraphURI := graphURI, StaticDirectory := "" }
                c.before).2) := by
  induction albums with
  | nil =>
    intro tr
    refine ⟨[], ⟨[], by simp [albumLoop, skipEvents]⟩, by simp, by simp, by simp [albumLoop, exitAfter],
      fun _ => by simp, fun h => absurd (by simp [albumLoop]) h⟩
  | cons a rest ih =>
    intro tr
    unfold albumLoop
    rw [h1, h2, h3]
    by_cases ha : a.Title = title
    · simp only [ha, ne_eq, not_true_eq_false, if_false]
      have hf : (a :: rest).filter (fun a => decide (a.Title = title))
          = a :: rest.filter (fun a => decide (a.Title = title)) := by simp [ha]
      rw [hf]
      cases hr : exportAlbum env fuel a
          { ContentDirectory := contentDirectory, GraphURI := graphURI, StaticDirectory := "" } tr with
      | mk out tr1 =>
        have ho : (exportAlbum env fuel a
            { ContentDirectory := contentDirectory, GraphURI := graphURI, StaticDirectory := "" }
            tr).1 = out := by rw [hr]
        have ht : (exportAlbum env fuel a
            { ContentDirectory := contentDirectory, GraphURI := graphURI, StaticDirectory := "" }
            tr).2 = tr1 := by rw [hr]
        cases out with
        | failed err =>
          refine ⟨[⟨a, tr, .failed err⟩], ⟨[], by simp [skipEvents], ho, ⟨[], ?_⟩⟩, ?_, ?_, ?_, ?_, ?_⟩
          · simp only; rw [ht]; simp [skipEvents]
          · simp
          · simp
          · simp [exitAfter]
          · intro h; exact absurd h (by simp)
          · intro _; exact ⟨⟨a, tr, .failed err⟩, by simp, by simp only; rw [ht]⟩
        | unfinished =>
          refine ⟨[⟨a, tr, .unfinished⟩], ⟨[], by simp [skipEvents], ho, ⟨[], ?_⟩⟩, ?_, ?_, ?_, ?_, ?_⟩
          · simp only; rw [ht]; simp [skipEvents]
          · simp
          · simp
          · simp [exitAfter]
          · intro h; exact absurd h (by simp)
          · intro _; exact ⟨⟨a, tr, .unfinished⟩, by simp, by simp only; rw [ht]⟩
        | done u =>
          simp only
          obtain ⟨calls, hm, hp, hd, he, hret, hnot⟩ := ih tr1
          refine ⟨⟨a, tr, .done u⟩ :: calls, ⟨[], by simp [skipEvents], ho, ?_⟩, ?_, ?_, ?_, ?_, ?_⟩
          · simp only; rw [ht]; exact hm
          · simp only [List.map_cons]
            exact (List.prefix_cons_inj a).mpr hp
          · intro c hc
            cases calls with
            | nil => simp at hc
            | cons c2 cs =>
              rw [List.dropLast_cons₂] at hc
              rcases List.mem_cons.mp hc with rfl | hc
              · rfl
              · exact hd c hc
          · rw [he]
            cases calls with
            | nil => simp [exitAfter]
            | cons c2 cs => rw [List.getLast?_cons_cons]
          · intro h
            simp only [List.map_cons]
            rw [hret h]
          · intro h
            obtain ⟨c, hc, hfin⟩ := hnot h
            refine ⟨c, ?_, hfin⟩
            cases calls with
            | nil => simp at hc
            | cons c2 cs => rw [List.getLast?_cons_cons]; exact hc
    · simp only [ha, ne_eq, not_false_eq_true, if_true]
      have hf : (a :: rest).filter (fun a => decide (a.Title = title))
          = rest.filter (fun a => decide (a.Title = title)) := by simp [ha]
      rw [hf]
      obtain ⟨calls, hm, hp, hd, he, hret, hnot⟩ :=
        ih (tr ++ [.printf "SKIP: %s %s\n" [a.Id, a.Title]])
      exact ⟨calls, madeCalls_after_skip env fuel _ a tr calls _ hm, hp, hd, he, hret, hnot⟩

theorem println_not_mem_of_noAlbumsMessages (d : List Event) (h : noAlbumsMessages d = 0) :
    Event.println "No albums found." ∉ d := by
  intro hmem
  unfold noAlbumsMessages at h
  have hnil : d.filter isNoAlbumsMessage = [] := List.length_eq_zero.mp h
  have := List.mem_filter.mpr ⟨hmem, (by decide : isNoAlbumsMessage (.println "No albums found.") = true)⟩
  rw [hnil] at this
  exact absurd this (List.not_mem_nil _)

/-- C8 (amended): with the credentials in order, the listing `albums`
returned by the single list call and the three positional arguments given,
`main` calls `exportAlbum` for the albums whose Title equals the requested
title (the whole string, case-sensitively), in listing order and each listed
album once, up to and including the first call that does not return `nil`:
every call but the last returned `nil`, `main` returns after a last call
that returned `nil` and panics with the error of a last call that returned
one, and then nothing follows that call. The albums exported are a prefix of
the listed albums with that title, and they are all of them, the skipped
albums being all the others, when `main` returns. When no title matches,
`main` returns without any directory creation or file write.
`fmt.Println("No albums found.")` is called if and only if the listing is
empty, and is then all that `main` does after the list call. -/
theorem main_exports_albums_with_title (env : Env) (fuel : Nat)
    (prog title contentDirectory graphURI : String) (albums : List Album)
    (hcred : env.readCredentials = none) (hconf : env.configFromJSON = none)
    (hclient : env.getClient = none) (hsrv : env.newService = none)
    (hlist : env.albumsList [] 25 = .ok albums) :
    exportedAlbums (main env fuel [prog, title, contentDirectory, graphURI]).2
      <+: albums.filter (fun a => decide (a.Title = title)) ∧
    skippedAlbums (main env fuel [prog, title, contentDirectory, graphURI]).2
      <+: albums.filter (fun a => decide (a.Title ≠ title)) ∧
    ((main env fuel [prog, title, contentDirectory, graphURI]).1 = .returned →
      exportedAlbums (main env fuel [prog, title, contentDirectory, graphURI]).2
        = albums.filter (fun a => decide (a.Title = title)) ∧
      skippedAlbums (main env fuel [prog, title, contentDirectory, graphURI]).2
        = albums.filter (fun a => decide (a.Title ≠ title))) ∧
    ((∀ a ∈ albums, a.Title ≠ title) →
      (main env fuel [prog, title, contentDirectory, graphURI]).1 = .returned ∧
      fileEvents (main env fuel [prog, title, contentDirectory, graphURI]).2 = []) ∧
    (Event.println "No albums found." ∈ (main env fuel [prog, title, contentDirectory, graphURI]).2
      ↔ albums = []) ∧
    (albums = [] →
      main env fuel [prog, title, contentDirectory, graphURI]
        = (.returned, [.albumsList 25 (.ok albums), .println "No albums found."])) ∧
    (albums ≠ [] →
      ∃ calls : List ExportCall,
        MadeCalls env fuel
          { ContentDirectory := contentDirectory, GraphURI := graphURI, StaticDirectory := "" }
          [.albumsList 25 (.ok albums)] calls
          (main env fuel [prog, title, contentDirectory, graphURI]).2 ∧
        calls.map (fun c => c.album)
          = exportedAlbums (main env fuel [prog, title, contentDirectory, graphURI]).2 ∧
        (∀ c ∈ calls.dropLast, c.outcome = .done ()) ∧
        (main env fuel [prog, title, contentDirectory, graphURI]).1 = exitAfter calls.getLast? ∧
        ((main env fuel [prog, title, contentDirectory, graphURI]).1 ≠ .returned →
          ∃ c, calls.getLast? = some c ∧
            (main env fuel [prog, title, contentDirectory, graphURI]).2
              = (exportAlbum env fuel c.album
                  { ContentDirectory := contentDirectory, GraphURI := graphURI,
                    StaticDirectory := "" } c.before).2)) := by
  have hmain0 : main env fuel [prog, title, contentDirectory, graphURI]
      = if albums.length = 0 then
          (.returned, [Event.albumsList 25 (.ok albums)] ++ [.println "No albums found."])
        else albumLoop env fuel [prog, title, contentDirectory, graphURI]
          [.albumsList 25 (.ok albums)] albums := by
    unfold main
    rw [hcred, hconf, hclient, hsrv, hlist]
  have hold :
      exportedAlbums (main env fuel [prog, title, contentDirectory, graphURI]).2
        <+: albums.filter (fun a => decide (a.Title = title)) ∧
      skippedAlbums (main env fuel [prog, title, contentDirectory, graphURI]).2
        <+: albums.filter (fun a => decide (a.Title ≠ title)) ∧
      ((main env fuel [prog, title, contentDirectory, graphURI]).1 = .returned →
        exportedAlbums (main env fuel [prog, title, contentDirectory, graphURI]).2
          = albums.filter (fun a => decide (a.Title = title)) ∧
        skippedAlbums (main env fuel [prog, title, contentDirectory, graphURI]).2
          = albums.filter (fun a => decide (a.Title ≠ title))) ∧
      ((∀ a ∈ albums, a.Title ≠ title) →
        (main env fuel [prog, title, contentDirectory, graphURI]).1 = .returned ∧
        fileEvents (main env fuel [prog, title, contentDirectory, graphURI]).2 = []) ∧
      (Event.println "No albums found."
          ∈ (main env fuel [prog, title, contentDirectory, graphURI]).2
        ↔ albums = []) := by
    have hmain : main env fuel [prog, title, contentDirectory, graphURI]
        = if albums.length = 0 then
            (.returned, [Event.albumsList 25 (.ok albums)] ++ [.println "No albums found."])
          else albumLoop env fuel [prog, title, contentDirectory, graphURI]
            [.albumsList 25 (.ok albums)] albums := by
      unfold main
      rw [hcred, hconf, hclient, hsrv, hlist]
    cases albums with
    | nil =>
      rw [hmain]
      simp only [List.length_nil, if_true]
      refine ⟨by simp [exportedAlbums, exportStart], by simp [skippedAlbums, skipReport],
        fun _ => ⟨by simp [exportedAlbums, exportStart], by simp [skippedAlbums, skipReport]⟩,
        fun _ => ⟨by simp, by simp [fileEvents]⟩, ?_⟩
      simp
    | cons a rest =>
      rw [hmain]
      simp only [List.length_cons, Nat.succ_ne_zero, if_false]
      obtain ⟨d, e, hno, p1, p2, hret, _⟩ := albumLoop_spec env fuel
        [prog, title, contentDirectory, graphURI] title contentDirectory graphURI rfl rfl rfl
        (a :: rest) [.albumsList 25 (.ok (a :: rest))]
      have hex : exportedAlbums ([Event.albumsList 25 (.ok (a :: rest))] ++ d) = exportedAlbums d := by
        rw [exportedAlbums_append]; rfl
      have hsk : skippedAlbums ([Event.albumsList 25 (.ok (a :: rest))] ++ d) = skippedAlbums d := by
        rw [skippedAlbums_append]; rfl
      rw [e, hex, hsk]
      refine ⟨p1, p2, hret, ?_, ?_⟩
      · intro hnone
        have := albumLoop_no_match env fuel [prog, title, contentDirectory, graphURI] title rfl
          (a :: rest) [.albumsList 25 (.ok (a :: rest))] hnone
        rw [this] at e
        have hd := List.append_cancel_left e
        rw [this]
        refine ⟨rfl, ?_⟩
        rw [fileEvents_append, ← hd, fileEvents_nil_of_skips]
        rfl
      · constructor
        · intro hmem
          exfalso
          rcases List.mem_append.mp hmem with h | h
          · simp at h
          · exact println_not_mem_of_noAlbumsMessages d hno h
        · intro h; exact absurd h (by simp)
  refine ⟨hold.1, hold.2.1, hold.2.2.1, hold.2.2.2.1, hold.2.2.2.2, ?_, ?_⟩
  · intro hnil
    rw [hmain0, hnil]
    rfl
  · intro hne
    have hlen : ¬ albums.length = 0 := fun h => hne (List.length_eq_zero.mp h)
    rw [hmain0, if_neg hlen]
    obtain ⟨calls, hm, _, hd, he, _, hnot⟩ := albumLoop_calls env fuel
      [prog, title, contentDirectory, graphURI] title contentDirectory graphURI rfl rfl rfl
      albums [.albumsList 25 (.ok albums)]
    obtain ⟨d, hd1, hd2⟩ := madeCalls_exportedAlbums env fuel _ calls _ _ hm
    refine ⟨calls, hm, ?_, hd, he, hnot⟩
    rw [hd1, exportedAlbums_append, hd2]
    rfl

/-! ## The page budget -/

/-- A page loop that ended within `fuel` pages ends in the same way within
any larger number of pages. -/
theorem searchLoop_fuel_mono (env : Env) (opts : ExportOptions) (fuel : Nat) :
    ∀ (search : SearchMediaItemsRequest) (st : LoopState) (tr : List Event),
      (searchLoop env opts fuel search st tr).1 ≠ .unfinished →
      ∀ extra, searchLoop env opts (fuel + extra) search st tr
        = searchLoop env opts fuel search st tr := by
  induction fuel with
  | zero => intro search st tr h; exact absurd (by simp [searchLoop]) h
  | succ fuel ih =>
    intro search st tr h extra
    have hf : fuel + 1 + extra = (fuel + extra) + 1 := by omega
    rw [hf]
    unfold searchLoop at h ⊢
    simp only at h ⊢
    cases ha : env.search tr search with
    | error err => rfl
    | ok res =>
      rw [ha] at h
      simp only at h ⊢
      cases hx : exportItems env opts st (tr ++ [.search search (.ok res)]) res.MediaItems with
      | mk r tr1 =>
        rw [hx] at h
        cases r with
        | error err => rfl
        | ok st1 =>
          simp only at h ⊢
          by_cases htok : res.NextPageToken = ""
          · simp [htok]
          · simp only [if_neg htok] at h ⊢
            exact ih _ st1 tr1 h extra

/-- A call of `exportAlbum` that ended within `fuel` pages ends in the same
way within any larger number of pages. -/
theorem exportAlbum_fuel_mono (env : Env) (fuel : Nat) (album : Album) (opts : ExportOptions)
    (tr : List Event) (h : (exportAlbum env fuel album opts tr).1 ≠ .unfinished) (extra : Nat) :
    exportAlbum env (fuel + extra) album opts tr = exportAlbum env fuel album opts tr := by
  unfold exportAlbum at h ⊢
  simp only at h ⊢
  have hs : (searchLoop env opts fuel { AlbumId := album.Id, PageSize := 100, PageToken := "" }
      initialState (tr ++ [.printf "%s %s\n" [album.Id, album.Title]])).1 ≠ .unfinished := by
    intro hu
    apply h
    cases hx : searchLoop env opts fuel { AlbumId := album.Id, PageSize := 100, PageToken := "" }
        initialState (tr ++ [.printf "%s %s\n" [album.Id, album.Title]]) with
    | mk r tr1 =>
      rw [hx] at hu
      simp only at hu
      rw [hu]
  rw [searchLoop_fuel_mono env opts fuel _ _ _ hs extra]

/-- A service that answers with an error or with a last page needs a budget
of one page only: `exportAlbum` ends. -/
theorem exportAlbum_single_page_ends (env : Env) (fuel : Nat) (album : Album)
    (opts : ExportOptions) (tr : List Event)
    (hlast : ∀ tr1 request res, env.search tr1 request = .ok res → res.NextPageToken = "") :
    (exportAlbum env (fuel + 1) album opts tr).1 ≠ .unfinished := by
  have hs : ∀ search st tr1, (searchLoop env opts (fuel + 1) search st tr1).1 ≠ .unfinished := by
    intro search st tr1
    unfold searchLoop
    simp only
    cases ha : env.search tr1 search with
    | error err => simp
    | ok res =>
      simp only
      cases hx : exportItems env opts st (tr1 ++ [.search search (.ok res)]) res.MediaItems with
      | mk r tr2 =>
        cases r with
        | error err => simp
        | ok st1 => simp [hlast tr1 search res ha]
  unfold exportAlbum
  simp only
  have := hs { AlbumId := album.Id, PageSize := 100, PageToken := "" } initialState
    (tr ++ [.printf "%s %s\n" [album.Id, album.Title]])
  cases hx : searchLoop env opts (fuel + 1) { AlbumId := album.Id, PageSize := 100, PageToken := "" }
      initialState (tr ++ [.printf "%s %s\n" [album.Id, album.Title]]) with
  | mk r tr1 =>
    rw [hx] at this
    cases r with
    | unfinished => exact absurd rfl this
    | failed err => simp
    | done st =>
      simp only
      obtain ⟨_, _, _, _, hw⟩ := writeAlbum_spec env album opts st tr1
      intro hu
      rw [hu] at hw
      exact hw

/-! ## Examples, witnesses and counterexamples -/

set_option maxRecDepth 1000000 in
/-- The example of the specification for C1: items created on 2020-01-01,
2020-06-15 and 2020-01-01 give `temporalCoverage` `2020-01-01/2020-06-15`,
and the amended C1 applies to this run. -/
theorem temporalCoverage_three_items_witness :
    (writesOf (sampleRun (onePage threeItems))).getLast? = some ("content/albums/A1.json",
      sampleAlbumText (",".intercalate sampleRefs) "2020-01-01/2020-06-15") ∧
    ∃ (earliest latest : MediaItem) (mn mx : Time) (doc : Json) (b : String),
      mn = threeTimes.foldl updateMin initialState.dateCreatedMin ∧
      mx = threeTimes.foldl updateMax initialState.dateCreatedMax ∧
      earliest ∈ returnedItems (sampleRun (onePage threeItems)) ∧
      parsedCreationTime earliest = some mn ∧
      (∀ t ∈ threeTimes, t.Before mn = false) ∧
      latest ∈ returnedItems (sampleRun (onePage threeItems)) ∧
      parsedCreationTime latest = some mx ∧
      (∀ t ∈ threeTimes, t.After mx = false) ∧
      (sampleEnv [] (onePage threeItems)).marshalIndent doc = .ok b ∧
      (sampleRun (onePage threeItems)).getLast? = some (.writeFile
        ((sampleEnv [] (onePage threeItems)).pathJoin sampleOpts.ContentDirectory
          (albumGraphPath sampleAlbum.Id)) (b ++ "\n") 0o755 none) ∧
      doc.get "temporalCoverage" = some (.str
        (if creationDate earliest = creationDate latest then creationDate earliest
         else creationDate earliest ++ "/" ++ creationDate latest)) :=
  ⟨by decide,
    temporalCoverage_spans_earliest_to_latest (sampleEnv [] (onePage threeItems)) 5 sampleAlbum
      sampleOpts [] (sampleRun (onePage threeItems)) (Prod.ext (by decide) rfl) threeTimes
      (by decide) (by decide) (by decide)⟩

set_option maxRecDepth 1000000 in
/-- C1 fails as stated: a single item created at 3000-01-01T00:00:00Z parses,
the export succeeds, but the running minimum stays at its start value
2999-12-31T00:00:00Z, which is not the creation time of the item, and the
album document gets `temporalCoverage` `2999-12-31/3000-01-01`. -/
theorem running_minimum_keeps_start_value_counterexample :
    parsedCreationTime (sampleItem "i1" "3000-01-01T00:00:00Z")
      = some { unixSec := 32503680000, nsec := 0, offset := 0 } ∧
    finalRange (searchLoop (sampleEnv [] (onePage [sampleItem "i1" "3000-01-01T00:00:00Z"]))
        sampleOpts 5 (firstRequest sampleAlbum) initialState
        [.printf "%s %s\n" [sampleAlbum.Id, sampleAlbum.Title]])
      = some ({ unixSec := 32503593600, nsec := 0, offset := 0 },
          { unixSec := 32503680000, nsec := 0, offset := 0 }) ∧
    (exportAlbum (sampleEnv [] (onePage [sampleItem "i1" "3000-01-01T00:00:00Z"])) 5 sampleAlbum
        sampleOpts []).1 = .done () ∧
    (writesOf (sampleRun (onePage [sampleItem "i1" "3000-01-01T00:00:00Z"]))).getLast?
      = some ("content/albums/A1.json",
          sampleAlbumText "\x7b\"@id\":\"https://g.example/items/37/i1.json\"\x7d"
            "2999-12-31/3000-01-01") := by
  decide

set_option maxRecDepth 1000000 in
/-- The example of the specification for C2: a single item created on
2021-03-03 gives `temporalCoverage` `2021-03-03`, and the amended C2 applies
to this run. -/
theorem temporalCoverage_single_item_witness :
    (writesOf (sampleRun (onePage [sampleItem "i1" "2021-03-03T10:00:00Z"]))).getLast?
      = some ("content/albums/A1.json",
          sampleAlbumText "\x7b\"@id\":\"https://g.example/items/37/i1.json\"\x7d" "2021-03-03") ∧
    ∃ (mn mx : Time) (doc : Json) (b coverage : String),
      mn = [({ unixSec := 1614765600, nsec := 0, offset := 0 } : Time)].foldl updateMin
        initialState.dateCreatedMin ∧
      mx = [({ unixSec := 1614765600, nsec := 0, offset := 0 } : Time)].foldl updateMax
        initialState.dateCreatedMax ∧
      (sampleEnv [] (onePage [sampleItem "i1" "2021-03-03T10:00:00Z"])).marshalIndent doc = .ok b ∧
      (sampleRun (onePage [sampleItem "i1" "2021-03-03T10:00:00Z"])).getLast? = some (.writeFile
        ((sampleEnv [] (onePage [sampleItem "i1" "2021-03-03T10:00:00Z"])).pathJoin
          sampleOpts.ContentDirectory (albumGraphPath sampleAlbum.Id)) (b ++ "\n") 0o755 none) ∧
      doc.get "temporalCoverage" = some (.str coverage) ∧
      (coverage = mn.Format .dateOnly ↔ mn.Format .dateOnly = mx.Format .dateOnly) ∧
      (mn.Format .dateOnly ≠ mx.Format .dateOnly →
        coverage = mn.Format .dateOnly ++ "/" ++ mx.Format .dateOnly) ∧
      (mn = mx → coverage = mn.Format .dateOnly) ∧
      (∀ item t,
        returnedItems (sampleRun (onePage [sampleItem "i1" "2021-03-03T10:00:00Z"])) = [item] →
        parsedCreationTime item = some t →
        t.Before initialState.dateCreatedMin = true → t.After initialState.dateCreatedMax = true →
        coverage = creationDate item) :=
  ⟨by decide,
    temporalCoverage_single_iff_same_date
      (sampleEnv [] (onePage [sampleItem "i1" "2021-03-03T10:00:00Z"])) 5 sampleAlbum sampleOpts []
      (sampleRun (onePage [sampleItem "i1" "2021-03-03T10:00:00Z"])) (Prod.ext (by decide) rfl)
      [{ unixSec := 1614765600, nsec := 0, offset := 0 }] (by decide)⟩

set_option maxRecDepth 1000000 in
/-- C2 fails as stated: two items created on 2021-03-03 at 10:00 and at 11:00
have different minimum and maximum creation timestamps, yet
`temporalCoverage` is the single date `2021-03-03`. -/
theorem same_day_items_give_single_date_counterexample :
    sameDayItems.map parsedCreationTime = sameDayTimes.map some ∧
    finalRange (searchLoop (sampleEnv [] (onePage sameDayItems)) sampleOpts 5
        (firstRequest sampleAlbum) initialState
        [.printf "%s %s\n" [sampleAlbum.Id, sampleAlbum.Title]])
      = some ({ unixSec := 1614765600, nsec := 0, offset := 0 },
          { unixSec := 1614769200, nsec := 0, offset := 0 }) ∧
    (exportAlbum (sampleEnv [] (onePage sameDayItems)) 5 sampleAlbum sampleOpts []).1 = .done () ∧
    (writesOf (sampleRun (onePage sameDayItems))).getLast?
      = some ("content/albums/A1.json",
          sampleAlbumText ("\x7b\"@id\":\"https://g.example/items/37/i1.json\"\x7d," ++
            "\x7b\"@id\":\"https://g.example/items/ce/i2.json\"\x7d") "2021-03-03") := by
  decide

set_option maxRecDepth 1000000 in
/-- C10 fails as stated: of two items inside the window, the one created at
2020-01-01T23:30:00-01:00 is the later instant and the one created at
2020-01-02T00:15:00+01:00 the earlier one; `temporalCoverage` is the range
`2020-01-02/2020-01-01`, whose start date is later than its end date. -/
theorem mixed_offsets_reverse_the_range_counterexample :
    mixedOffsetItems.map parsedCreationTime
      = [some { unixSec := 1577925000, nsec := 0, offset := -3600 },
         some { unixSec := 1577920500, nsec := 0, offset := 3600 }] ∧
    (∀ t ∈ [({ unixSec := 1577925000, nsec := 0, offset := -3600 } : Time),
        { unixSec := 1577920500, nsec := 0, offset := 3600 }],
      t.After initialState.dateCreatedMax = true ∧ t.Before initialState.dateCreatedMin = true) ∧
    finalRange (searchLoop (sampleEnv [] (onePage mixedOffsetItems)) sampleOpts 5
        (firstRequest sampleAlbum) initialState
        [.printf "%s %s\n" [sampleAlbum.Id, sampleAlbum.Title]])
      = some ({ unixSec := 1577920500, nsec := 0, offset := 3600 },
          { unixSec := 1577925000, nsec := 0, offset := -3600 }) ∧
    (exportAlbum (sampleEnv [] (onePage mixedOffsetItems)) 5 sampleAlbum sampleOpts []).1
      = .done () ∧
    (writesOf (sampleRun (onePage mixedOffsetItems))).getLast?
      = some ("content/albums/A1.json",
          sampleAlbumText ("\x7b\"@id\":\"https://g.example/items/37/i1.json\"\x7d," ++
            "\x7b\"@id\":\"https://g.example/items/ce/i2.json\"\x7d") "2020-01-02/2020-01-01") ∧
    (CivilDate.mk 2020 1 1).earlier (CivilDate.mk 2020 1 2) ∧
    (CivilDate.mk 2020 1 2).render = "2020-01-02" ∧ (CivilDate.mk 2020 1 1).render = "2020-01-01" := by
  decide

set_option maxRecDepth 1000000 in
/-- The amended C10 applies to the run over the three items of the
specification's example, whose creation times are all in UTC. -/
theorem range_start_date_precedes_end_date_witness :
    (threeTimes ≠ [] ∧ ∀ t ∈ threeTimes, t.offset = 0) ∧
    ∃ (doc : Json) (b : String) (a z : CivilDate),
      (sampleEnv [] (onePage threeItems)).marshalIndent doc = .ok b ∧
      (sampleRun (onePage threeItems)).getLast? = some (.writeFile
        ((sampleEnv [] (onePage threeItems)).pathJoin sampleOpts.ContentDirectory
          (albumGraphPath sampleAlbum.Id)) (b ++ "\n") 0o755 none) ∧
      doc.get "temporalCoverage" = some (.str
        (if a.render = z.render then a.render else a.render ++ "/" ++ z.render)) ∧
      (a.render ≠ z.render → a.earlier z) :=
  ⟨by decide,
    range_start_date_precedes_end_date (sampleEnv [] (onePage threeItems)) 5 sampleAlbum
      sampleOpts [] (sampleRun (onePage threeItems)) (Prod.ext (by decide) rfl) threeTimes
      (by decide) (by decide) 0 (by decide) (by decide)⟩

set_option maxHeartbeats 1000000 in
set_option maxRecDepth 1000000 in
/-- C4 applies to a run over two pages: the three items are referenced in the
order of their delivery. -/
theorem itemListElement_two_pages_witness :
    (writesOf (sampleRun (twoPages sameDayItems [sampleItem "i3" "2021-03-04T09:00:00Z"]))).getLast?
      = some ("content/albums/A1.json",
          sampleAlbumText (",".intercalate sampleRefs) "2021-03-03/2021-03-04") ∧
    ∃ (doc : Json) (b : String),
      (sampleEnv [] (twoPages sameDayItems [sampleItem "i3" "2021-03-04T09:00:00Z"])).marshalIndent doc = .ok b ∧
      (sampleRun (twoPages sameDayItems [sampleItem "i3" "2021-03-04T09:00:00Z"])).getLast? = some (.writeFile
        ((sampleEnv [] (twoPages sameDayItems [sampleItem "i3" "2021-03-04T09:00:00Z"])).pathJoin sampleOpts.ContentDirectory
          (albumGraphPath sampleAlbum.Id)) (b ++ "\n") 0o755 none) ∧
      doc.get "itemListElement" = some (.arr
        ((returnedItems (sampleRun (twoPages sameDayItems [sampleItem "i3" "2021-03-04T09:00:00Z"]))).map
          (fun item => Json.obj
            [("@id", .str (sampleOpts.GraphURI ++ "/" ++ itemGraphPath item.Id))]))) :=
  ⟨by decide,
    itemListElement_one_ref_per_item_in_order (sampleEnv [] (twoPages sameDayItems [sampleItem "i3" "2021-03-04T09:00:00Z"])) 5
      sampleAlbum sampleOpts [] (sampleRun (twoPages sameDayItems [sampleItem "i3" "2021-03-04T09:00:00Z"]))
      (Prod.ext (by decide) rfl)⟩

set_option maxRecDepth 1000000 in
/-- C3 applies to a run that fails at the second of three items (its creation
time does not parse): only the document of the first item is written; and to
a run that succeeds. -/
theorem album_document_written_last_or_not_at_all_witness :
    ((exportAlbum (sampleEnv [] (onePage itemsWithBadTime)) 5 sampleAlbum sampleOpts []).1
        = .failed "parsing time: parsing time \"yesterday\"" ∧
      (writesOf (sampleRun (onePage itemsWithBadTime))).map Prod.fst
        = ["content/items/37/i1.json"]) ∧
    (∃ finished, finished <+: returnedItems (sampleRun (onePage itemsWithBadTime)) ∧
      List.Forall₂ (IsItemWrite (sampleEnv [] (onePage itemsWithBadTime)) sampleOpts) finished
        (writesOf (sampleRun (onePage itemsWithBadTime)))) ∧
    (∃ (doc : Json) (b : String) (pre : List Event) (refs : List Json),
      (sampleEnv [] (onePage threeItems)).marshalIndent doc = .ok b ∧
      sampleRun (onePage threeItems) = pre ++ [.writeFile
        ((sampleEnv [] (onePage threeItems)).pathJoin sampleOpts.ContentDirectory
          (albumGraphPath sampleAlbum.Id)) (b ++ "\n") 0o755 none] ∧
      List.Forall₂ (IsItemWrite (sampleEnv [] (onePage threeItems)) sampleOpts)
        (returnedItems (sampleRun (onePage threeItems))) (writesOf pre) ∧
      doc.get "itemListElement" = some (.arr refs) ∧
      ∀ ref ∈ refs, ∃ item w,
        ref = Json.obj [("@id", .str (sampleOpts.GraphURI ++ "/" ++ itemGraphPath item.Id))] ∧
        w ∈ writesOf pre ∧ IsItemWrite (sampleEnv [] (onePage threeItems)) sampleOpts item w) :=
  ⟨by decide,
    (album_document_written_last_or_not_at_all (sampleEnv [] (onePage itemsWithBadTime)) 5
      sampleAlbum sampleOpts [] (sampleRun (onePage itemsWithBadTime))
      (.failed "parsing time: parsing time \"yesterday\"") (Prod.ext (by decide) rfl)).1 _ rfl,
    (album_document_written_last_or_not_at_all (sampleEnv [] (onePage threeItems)) 5
      sampleAlbum sampleOpts [] (sampleRun (onePage threeItems)) (.done ())
      (Prod.ext (by decide) rfl)).2 rfl⟩

set_option maxRecDepth 1000000 in
/-- C9 applies to an item whose aperture is the `float64` nearest to 2.8: the
value of its aperture entry is `f/2.8`. -/
theorem aperture_value_witness :
    (photoItem.MediaMetadata.Photo.ApertureFNumber.isNonZero = true ∧
      apertureValue photoItem.MediaMetadata.Photo.ApertureFNumber = "f/2.8") ∧
    ∃ numeral : List Char,
      Json.obj [("@type", .str "PropertyValue"), ("identifier", .str "aperture"),
        ("value", .str (String.mk ('f' :: '/' :: numeral)))] ∈ exifData photoItem ∧
      (∃ zeros, sprintfF photoItem.MediaMetadata.Photo.ApertureFNumber = numeral ++ zeros ∧
        ∀ c ∈ zeros, c = '0') ∧
      ('f' :: '/' :: numeral).getLast? ≠ some '0' ∧
      ∃ v : ℚ, decimalValue numeral = some v ∧ (∃ n : ℤ, v * 10 ^ 6 = n) ∧
        |v - photoItem.MediaMetadata.Photo.ApertureFNumber.toRat| ≤ 1 / (2 * 10 ^ 6) :=
  ⟨by decide, aperture_value_is_trimmed_rounding photoItem (by decide)⟩

set_option maxRecDepth 1000000 in
/-- C8 fails as stated: when the search fails during the export of the first
album titled `Trip`, `main` panics and the second album titled `Trip` is never
exported. -/
theorem main_stops_at_failed_export_counterexample :
    (main (sampleEnv sampleListing (fun _ => .error "service unavailable")) 5 sampleArgs).1
      = .panic "searching: service unavailable" ∧
    exportedAlbums
        (main (sampleEnv sampleListing (fun _ => .error "service unavailable")) 5 sampleArgs).2
      = [{ Id := "A1", Title := "Trip" }] ∧
    sampleListing.filter (fun a => decide (a.Title = "Trip"))
      = [{ Id := "A1", Title := "Trip" }, { Id := "A3", Title := "Trip" }] := by
  decide

set_option maxRecDepth 1000000 in
/-- The amended C8 applies to a listing of three albums of which the first
and the third are titled `Trip`: with a working service both are exported and
the second is skipped; with a failing search `main` panics in the call for
the first, which is the only call. -/
theorem main_exports_albums_with_title_witness :
    ((main (sampleEnv sampleListing (onePage threeItems)) 5 sampleArgs).1 = .returned ∧
      (main (sampleEnv sampleListing (fun _ => .error "service unavailable")) 5 sampleArgs).1
        = .panic "searching: service unavailable") ∧
    (exportedAlbums (main (sampleEnv sampleListing (onePage threeItems)) 5
        ["exporter", "Trip", "content", "https://g.example"]).2
      = sampleListing.filter (fun a => decide (a.Title = "Trip")) ∧
    skippedAlbums (main (sampleEnv sampleListing (onePage threeItems)) 5
        ["exporter", "Trip", "content", "https://g.example"]).2
      = sampleListing.filter (fun a => decide (a.Title ≠ "Trip"))) ∧
    (∃ calls : List ExportCall,
      MadeCalls (sampleEnv sampleListing (fun _ => .error "service unavailable")) 5
        { ContentDirectory := "content", GraphURI := "https://g.example", StaticDirectory := "" }
        [.albumsList 25 (.ok sampleListing)] calls
        (main (sampleEnv sampleListing (fun _ => .error "service unavailable")) 5
          ["exporter", "Trip", "content", "https://g.example"]).2 ∧
      calls.map (fun c => c.album)
        = exportedAlbums (main (sampleEnv sampleListing (fun _ => .error "service unavailable")) 5
            ["exporter", "Trip", "content", "https://g.example"]).2 ∧
      (∀ c ∈ calls.dropLast, c.outcome = .done ()) ∧
      (main (sampleEnv sampleListing (fun _ => .error "service unavailable")) 5
          ["exporter", "Trip", "content", "https://g.example"]).1 = exitAfter calls.getLast? ∧
      ((main (sampleEnv sampleListing (fun _ => .error "service unavailable")) 5
          ["exporter", "Trip", "content", "https://g.example"]).1 ≠ .returned →
        ∃ c, calls.getLast? = some c ∧
          (main (sampleEnv sampleListing (fun _ => .error "service unavailable")) 5
              ["exporter", "Trip", "content", "https://g.example"]).2
            = (exportAlbum (sampleEnv sampleListing (fun _ => .error "service unavailable")) 5
                c.album
                { ContentDirectory := "content", GraphURI := "https://g.example",
                  StaticDirectory := "" } c.before).2)) :=
  ⟨by decide,
    (main_exports_albums_with_title (sampleEnv sampleListing (onePage threeItems)) 5
      "exporter" "Trip" "content" "https://g.example" sampleListing rfl rfl rfl rfl rfl).2.2.1
      (by decide),
    (main_exports_albums_with_title
      (sampleEnv sampleListing (fun _ => .error "service unavailable")) 5
      "exporter" "Trip" "content" "https://g.example" sampleListing rfl rfl rfl rfl rfl).2.2.2.2.2.2
      (by decide)⟩

end GooglePhotosExporter
